import Mathlib

/-!
Shallow embedding of the job-orchestration engine of the `news_receiver`
repository: the orchestration script `src/trafficIngestor/news_receiver_traffic.py`
(configuration constants, backlog client, dispatch throttle, container pool
preparation, `exec_once` result reconciliation, `worker_loop` retry loop, and the
outer batch-controller loop of `main`), together with the in-container artifact
validation step of `src/traffice_capture/action.py` (`start_task`, lines 123-157).

SQL `NULL` is modelled as `Option.none`; a MySQL table is a list of rows; the
database is an association list from table name to table.  File systems are
association lists from path to file size.  Machine-level concerns (threads, real
clocks) are modelled by explicit traces: the dispatch throttle's mutex-guarded
check-and-set becomes a step function on the shared timestamp, and a run of the
throttle is a list of recorded dispatch timestamps validated by that step.
-/

/-! ### Configuration constants (news_receiver_traffic.py, lines 36-60) -/

def CONTAINER_PREFIX : String := "news_traffic"

def HOST_CODE_PATH : String := "/home/pcz/code/news_receiver/traffice_capture"

def DASE_DST : String := "/netdisk/news_receiver"

def DOCKER_EXEC_TIMEOUT : Nat := 6000

def RETRY : Nat := 5

def NO_TASK_SLEEP_SECONDS : Nat := 600

def EXEC_INTERVAL : ℚ := 1

def BATCH_SIZE : Nat := 10000

/-- The hard-coded `time.sleep(5)` between two attempts in `worker_loop`. -/
def RETRY_SLEEP_SECONDS : Nat := 5

/-! ### String helpers

`String.replace` and `String.splitOn` from core do not reduce inside the kernel,
so the two string operations the reconciler needs (Python's `str.replace` and
`os.path.basename`, the latter used implicitly by `shutil.move` into a
directory) are given fueled character-list implementations with the same
semantics: left-to-right replacement of every non-overlapping occurrence, and
the suffix after the last slash. -/

def replaceChars : Nat → List Char → List Char → List Char → List Char
  | 0, s, _, _ => s
  | _ + 1, [], _, _ => []
  | fuel + 1, c :: rest, pat, rep =>
    if pat ≠ [] ∧ pat.isPrefixOf (c :: rest) then
      rep ++ replaceChars fuel ((c :: rest).drop pat.length) pat rep
    else
      c :: replaceChars fuel rest pat rep

def strReplace (s pat rep : String) : String :=
  ⟨replaceChars s.data.length s.data pat.data rep.data⟩

def lastSegment : List Char → List Char → List Char
  | [], acc => acc
  | c :: rest, acc => if c = '/' then lastSegment rest [] else lastSegment rest (acc ++ [c])

/-- `os.path.basename`: the part of the path after the last slash. -/
def baseName (p : String) : String := ⟨lastSegment p.data []⟩

/-! ### Backlog rows and the database (the MySQL tables behind the backlog client) -/

/-- One row of a per-source content table (`bbc_content`, `dailymail_content`, ...).
Columns are the ones the orchestrator reads or writes; `none` is SQL `NULL`. -/
structure BacklogRow where
  id : Nat
  url : Option String
  classify_status : Option Int
  traffic_status : Option Int
  pcap_path : Option String
  ssl_key_path : Option String
  content_path : Option String
  html_path : Option String
  traffic_feature : Option String
  deriving Repr, DecidableEq

/-- The SQL predicate `pcap_path IS NULL OR pcap_path = ''` used as the guard of
every conditional update and of the fetch query. -/
def pcapEmpty (r : BacklogRow) : Bool :=
  r.pcap_path = none || r.pcap_path = some ""

/-- The SQL predicate `url IS NOT NULL AND url <> ''` of the fetch query. -/
def urlPresent (r : BacklogRow) : Bool :=
  match r.url with
  | none => false
  | some s => s ≠ ""

abbrev Table := List BacklogRow

abbrev Database := List (String × Table)

def dbGet (db : Database) (t : String) : Table :=
  ((db.find? (fun e => e.1 = t)).map (fun e => e.2)).getD []

def dbSet (db : Database) (t : String) (rows : Table) : Database :=
  db.map (fun e => if e.1 = t then (e.1, rows) else e)

def findRow (rows : Table) (i : Nat) : Option BacklogRow :=
  rows.find? (fun r => r.id = i)

/-- `get_table_name` (news_receiver_traffic.py, lines 99-107). -/
def get_table_name (domain : String) : String :=
  if domain = "bbc.com" then "bbc_content"
  else if domain = "nih.gov" then "nih_content"
  else if domain = "forbeschina.com" then "forbeschina_content"
  else if domain = "dailymail.co.uk" then "dailymail_content"
  else ""

/-- Effect of one `UPDATE ... SET ... WHERE ...` statement on a table: every row
is rewritten by `f`, and the statement's rowcount is the number of rows whose
flag came back true (the rows matched by the WHERE clause). -/
def updateRows (f : BacklogRow → BacklogRow × Bool) (rows : Table) : Table × Nat :=
  (rows.map (fun r => (f r).1), rows.countP (fun r => (f r).2))

/-- Row-level effect of the `markDone` UPDATE of `upload_single_record_to_db`
(news_receiver_traffic.py, lines 150-162): set both status columns to 0, the four
artifact path columns to the final resting paths and `traffic_feature` to NULL,
guarded by `id = :id AND (pcap_path IS NULL OR pcap_path = '')`. -/
def markDoneRow (row_id : Nat) (p s c h : String) (r : BacklogRow) : BacklogRow × Bool :=
  if r.id = row_id ∧ pcapEmpty r = true then
    ({ r with classify_status := some 0, traffic_status := some 0,
              pcap_path := some p, ssl_key_path := some s,
              content_path := some c, html_path := some h,
              traffic_feature := none }, true)
  else (r, false)

/-- `upload_single_record_to_db` (news_receiver_traffic.py, lines 142-175).
`dbError` injects the `except Exception` branch: the transaction is never
committed, so the database is returned unchanged and the function reports
`false`.  An unmapped domain is rejected before touching the database. -/
def upload_single_record_to_db (dbError : Bool) (db : Database) (domain : String)
    (row_id : Nat) (p s c h : String) : Database × Bool :=
  let table := get_table_name domain
  if table = "" then (db, false)
  else if dbError then (db, false)
  else
    let res := updateRows (markDoneRow row_id p s c h) (dbGet db table)
    (dbSet db table res.1, decide (0 < res.2))

/-- Row-level effect of the `markFailed` UPDATE of `mark_failed_record_to_db`
(news_receiver_traffic.py, lines 184-190): set only `pcap_path` to the sentinel
`'error'`, under the same conditional guard. -/
def markFailedRow (row_id : Nat) (r : BacklogRow) : BacklogRow × Bool :=
  if r.id = row_id ∧ pcapEmpty r = true then
    ({ r with pcap_path := some "error" }, true)
  else (r, false)

/-- `mark_failed_record_to_db` (news_receiver_traffic.py, lines 177-203). -/
def mark_failed_record_to_db (dbError : Bool) (db : Database) (domain : String)
    (row_id : Nat) : Database × Bool :=
  let table := get_table_name domain
  if table = "" then (db, false)
  else if dbError then (db, false)
  else
    let res := updateRows (markFailedRow row_id) (dbGet db table)
    (dbSet db table res.1, decide (0 < res.2))

/-! ### Fetching jobs (`fetch_jobs_from_db`, news_receiver_traffic.py, lines 109-140) -/

/-- A work item as built by `fetch_jobs_from_db`; `container` is filled in by the
worker (`task["container"] = container`) before the first attempt. -/
structure Job where
  row_id : Nat
  url : String
  domain : String
  container : String
  deriving Repr, DecidableEq

/-- The `ORDER BY id` ordering. -/
def rowIdLe (a b : BacklogRow) : Prop := a.id ≤ b.id

instance : DecidableRel rowIdLe := fun a b => inferInstanceAs (Decidable (a.id ≤ b.id))

instance : IsTotal BacklogRow rowIdLe := ⟨fun a b => Nat.le_total a.id b.id⟩

instance : IsTrans BacklogRow rowIdLe := ⟨fun _ _ _ => Nat.le_trans⟩

/-- `fetch_jobs_from_db`: `SELECT id, url FROM table WHERE (pcap_path IS NULL OR
pcap_path = '') AND url IS NOT NULL AND url <> '' ORDER BY id LIMIT limit`, with
the `wikicontent` URL-prefix special case, wrapped in a `try` that logs any
connectivity error and returns the empty job list (`dbError` injects it). -/
def fetch_jobs_from_db (dbError : Bool) (db : Database) (table : String)
    (domain : String) (limit : Nat) : List Job :=
  if dbError then []
  else
    ((((dbGet db table).filter (fun r => pcapEmpty r && urlPresent r)).insertionSort
        rowIdLe).take limit).map
      (fun r =>
        let u := r.url.getD ""
        { row_id := r.id,
          url := if table = "wikicontent" then "https://zh.wikipedia.org/wiki/" ++ u else u,
          domain := domain, container := "" })

/-! ### File system model -/

abbrev FPath := String

/-- A file system: an association list from path to file size in bytes. -/
abbrev FS := List (FPath × Nat)

def fsLookup (fs : FS) (p : FPath) : Option Nat :=
  ((fs.find? (fun e => e.1 = p)).map (fun e => e.2))

def fsExists (fs : FS) (p : FPath) : Bool := (fsLookup fs p).isSome

/-- `os.path.getsize`, with missing files read as size 0 (in `start_task` the
pcap and key files have just been produced, so the distinction is immaterial). -/
def fsSize (fs : FS) (p : FPath) : Nat := (fsLookup fs p).getD 0

def fsRemove (fs : FS) (p : FPath) : FS := fs.filter (fun e => e.1 ≠ p)

def fsRemoveAll (fs : FS) (ps : List FPath) : FS := ps.foldl fsRemove fs

/-- `shutil.move(src, dstDir)` with `dstDir` an existing directory: the file is
renamed to `dstDir/basename(src)` and that destination is returned; a missing
source raises (modelled as `none`). -/
def moveFile (fs : FS) (src dstDir : FPath) : Option (FS × FPath) :=
  match fsLookup fs src with
  | none => none
  | some sz =>
    let dst := dstDir ++ "/" ++ baseName src
    some (fsRemove fs src ++ [(dst, sz)], dst)

/-- Destination a `moveFile` step would produce. -/
def dstOf (step : FPath × FPath) : FPath := step.2 ++ "/" ++ baseName step.1

/-- The sequence of `shutil.move` calls of `exec_once` (lines 411-424), with
fault injection: `faults.getD k true` makes the k-th move raise an I/O error
even though the source exists (the mid-move failure of spec §7 category 4).
Returns the file system reached, the destinations of the moves that completed,
and whether the whole sequence succeeded.  On failure the moves already done are
kept (the `except` in `exec_once` does not roll anything back). -/
def moveAll (faults : List Bool) : Nat → FS → List (FPath × FPath) → FS × List FPath × Bool
  | _, fs, [] => (fs, [], true)
  | k, fs, step :: rest =>
    if faults.getD k false = true then (fs, [], false)
    else
      match moveFile fs step.1 step.2 with
      | none => (fs, [], false)
      | some fsdst =>
        let res := moveAll faults (k + 1) fsdst.1 rest
        (res.1, fsdst.2 :: res.2.1, res.2.2)

/-! ### The artifact manifest and `exec_once` (news_receiver_traffic.py, lines 363-445) -/

/-- The parsed `<HOST_CODE_PATH>/meta/<container>_last.json`; `result.get(k)`
yields `none` for a missing key. -/
structure Manifest where
  pcap_path : Option String
  ssl_key_file_path : Option String
  content_path : Option String
  html_path : Option String
  screenshot_path : Option String
  deriving Repr, DecidableEq

/-- Python truthiness of an optional string: `None` and `""` are falsy; the
`if not all([...])` check of line 385 fails on either. -/
def truthy (o : Option String) : Bool :=
  match o with
  | none => false
  | some s => s ≠ ""

def manifestComplete (m : Manifest) : Bool :=
  truthy m.pcap_path && truthy m.ssl_key_file_path && truthy m.content_path &&
    truthy m.html_path && truthy m.screenshot_path

/-- The `path.replace("/app", HOST_CODE_PATH)` rewrite of lines 388-392. -/
def rwPath (p : String) : String := strReplace p "/app" HOST_CODE_PATH

/-- The five (source, destination directory) pairs of the relocation, in source
order: pcap, ssl_key, content, html, screenshot (lines 394-424). -/
def movePlan (m : Manifest) (domain : String) : List (FPath × FPath) :=
  let dst := DASE_DST ++ "/" ++ domain
  [ (rwPath (m.pcap_path.getD ""), dst ++ "/pcap"),
    (rwPath (m.ssl_key_file_path.getD ""), dst ++ "/ssl_key"),
    (rwPath (m.content_path.getD ""), dst ++ "/content"),
    (rwPath (m.html_path.getD ""), dst ++ "/html"),
    (rwPath (m.screenshot_path.getD ""), dst ++ "/screenshot") ]

/-- External state and nondeterminism of one `docker exec` attempt as seen by
`exec_once`: the exit code and stderr text of the container call, the manifest
read afterwards (`none` for a missing or unparsable file), the host-visible file
system, injected I/O faults for the moves, and whether the backlog UPDATE of the
success branch errors. -/
structure ExecWorld where
  exitCode : Int
  errText : String
  manifest : Option Manifest
  fs : FS
  moveFault : List Bool
  dbError : Bool
  deriving Repr, DecidableEq

structure CoreResult where
  ok : Bool
  err : String
  fs : FS
  dsts : List FPath
  deriving Repr, DecidableEq

/-- `exec_once` up to (but not including) the backlog write: the exit-code check,
the manifest completeness check of line 385, and the five moves.  Its `ok` field
is the value `exec_once` returns, since the `try` around the database block
swallows every exception (lines 427-440). -/
def exec_attempt_core (w : ExecWorld) (task : Job) : CoreResult :=
  if w.exitCode ≠ 0 then ⟨false, w.errText, w.fs, []⟩
  else
    match w.manifest with
    | none => ⟨false, "post-processing error", w.fs, []⟩
    | some m =>
      if manifestComplete m = false then
        ⟨false, "result JSON missing required paths", w.fs, []⟩
      else
        let res := moveAll w.moveFault 0 w.fs (movePlan m task.domain)
        if res.2.2 then ⟨true, "", res.1, res.2.1⟩
        else ⟨false, "post-processing error", res.1, res.2.1⟩

structure ExecResult where
  ok : Bool
  err : String
  fs : FS
  db : Database
  deriving Repr, DecidableEq

/-- `exec_once` (lines 363-445).  On a fully successful attempt the first four
destination paths are written back through `upload_single_record_to_db` (the
screenshot is relocated but not recorded); any failure of that write — error,
exception or zero matched rows — is logged and the function still returns
success.  On a failed attempt the database is untouched. -/
def exec_once (w : ExecWorld) (task : Job) (db : Database) : ExecResult :=
  let c := exec_attempt_core w task
  if c.ok then
    let db' :=
      if task.domain ≠ "" then
        (upload_single_record_to_db w.dbError db task.domain task.row_id
          (c.dsts.getD 0 "") (c.dsts.getD 1 "") (c.dsts.getD 2 "") (c.dsts.getD 3 "")).1
      else db
    ⟨true, "", c.fs, db'⟩
  else ⟨false, c.err, c.fs, db⟩

/-! ### The worker retry loop (`worker_loop`, news_receiver_traffic.py, lines 448-512) -/

/-- What the n-th attempt's environment call does: runs `exec_once` against a
world, raises `subprocess.TimeoutExpired`, or raises some other exception. -/
inductive AttemptWorld
  | runs (w : ExecWorld)
  | timeout
  | raised (e : String)
  deriving Repr, DecidableEq

/-- One iteration of the attempt loop body: result flag, diagnostic text and
database after the attempt.  The two `except` arms of lines 481-491 convert the
raised exceptions into a failed attempt. -/
def attemptOnce (aw : AttemptWorld) (task : Job) (db : Database) :
    Bool × String × Database :=
  match aw with
  | .runs w =>
    let r := exec_once w task db
    (r.ok, r.err, r.db)
  | .timeout => (false, "timeout>" ++ toString DOCKER_EXEC_TIMEOUT ++ "s", db)
  | .raised e => (false, e, db)

/-- The `for attempt in range(retry + 1)` loop over the list of remaining attempt
indices: stops at the first success, sleeps `RETRY_SLEEP_SECONDS` after every
failed non-final attempt.  Returns (ok, last error, database, attempt indices
executed, sleeps performed). -/
def runAttempts (worlds : Nat → AttemptWorld) (task : Job) :
    List Nat → Database → Bool × String × Database × List Nat × List Nat
  | [], db => (false, "", db, [], [])
  | [n], db =>
    let a := attemptOnce (worlds n) task db
    (a.1, a.2.1, a.2.2, [n], [])
  | n :: m :: rest, db =>
    let a := attemptOnce (worlds n) task db
    if a.1 then (a.1, a.2.1, a.2.2, [n], [])
    else
      let r := runAttempts worlds task (m :: rest) a.2.2
      (r.1, r.2.1, r.2.2.1, n :: r.2.2.2.1, RETRY_SLEEP_SECONDS :: r.2.2.2.2)

structure Stats where
  ok : Nat
  fail : Nat
  errors : List (Job × String)
  deriving Repr, DecidableEq

/-- Observable trace of processing one job: which attempt indices ran and with
which container binding, the inter-attempt sleeps, and how many times
`mark_failed_record_to_db` was invoked. -/
structure WorkerTrace where
  attempts : List (Nat × String)
  sleeps : List Nat
  markFailedCalls : Nat
  deriving Repr, DecidableEq

/-- The body of `worker_loop` for one dequeued task (lines 457-512): bind the
task to this worker's container, run the attempt loop, then either count a
success or — after exhausting every attempt — invoke `markFailed` (guarded by
`if _db_engine and domain`) and count a failure. -/
def worker_process_one (worlds : Nat → AttemptWorld) (mfError : Bool)
    (container : String) (task : Job) (retry : Nat) (db : Database)
    (stats : Stats) : Database × Stats × WorkerTrace :=
  let t := { task with container := container }
  let r := runAttempts worlds t (List.range (retry + 1)) db
  let attempts := r.2.2.2.1.map (fun n => (n, t.container))
  let sleeps := r.2.2.2.2
  if r.1 then
    (r.2.2.1, { stats with ok := stats.ok + 1 },
      { attempts := attempts, sleeps := sleeps, markFailedCalls := 0 })
  else
    let dbmf :=
      if t.domain ≠ "" then
        ((mark_failed_record_to_db mfError r.2.2.1 t.domain t.row_id).1, 1)
      else (r.2.2.1, 0)
    (dbmf.1,
      { stats with fail := stats.fail + 1, errors := stats.errors ++ [(t, r.2.1)] },
      { attempts := attempts, sleeps := sleeps, markFailedCalls := dbmf.2 })

/-! ### In-container artifact validation (`start_task`, traffice_capture/action.py,
lines 123-145) -/

def wiwi_pcap_lowest_size : Nat := 250000

def wiwi_ssl_key_lowest_size : Nat := 2000

/-- The size/existence check after a capture and the deletion of every partial
file when it fails: `pcap > 250000 and ssl_key > 2000 and content exists and
html exists`, else all five files of the attempt are removed. -/
def validate_and_clean (fs : FS) (pcap ssl content html screenshot : FPath) :
    FS × Bool :=
  if wiwi_pcap_lowest_size < fsSize fs pcap ∧ wiwi_ssl_key_lowest_size < fsSize fs ssl
      ∧ fsExists fs content = true ∧ fsExists fs html = true then
    (fs, true)
  else
    (fsRemoveAll fs [pcap, ssl, content, html, screenshot], false)

/-! ### Dispatch throttle (`_wait_before_exec`, news_receiver_traffic.py, lines 227-242) -/

/-- The body executed under `_last_exec_lock`: with the shared `_last_exec_ts`
equal to `lastTs` and the monotonic clock reading `now`, the caller proceeds —
recording `now` as the new `_last_exec_ts` — exactly when
`lastTs + EXEC_INTERVAL - now ≤ 0`; otherwise it releases the lock and sleeps. -/
def wait_before_exec_check (lastTs now : ℚ) : Option ℚ :=
  if lastTs + EXEC_INTERVAL - now ≤ 0 then some now else none

/-- A list of recorded dispatch start timestamps is a possible run of the
throttle from shared state `lastTs`: every entry passed the check against the
previously recorded timestamp.  The mutex makes each check-and-set atomic, so
every interleaving of worker threads produces exactly such a list. -/
def validDispatchTrace : ℚ → List ℚ → Bool
  | _, [] => true
  | lastTs, t :: ts => (wait_before_exec_check lastTs t).isSome && validDispatchTrace t ts

/-! ### Container pool preparation (news_receiver_traffic.py, lines 257-342 and 514-544) -/

structure ContainerState where
  running : Bool
  offloadMarker : Bool
  deriving Repr, DecidableEq

/-- Docker-side state: the named containers (with the `/tmp/.offload_disabled`
marker file inside each) and the log of ethtool offload applications actually
performed. -/
structure DockerWorld where
  containers : List (String × ContainerState)
  offloadApplied : List String
  deriving Repr, DecidableEq

def lookupC (w : DockerWorld) (n : String) : Option ContainerState :=
  ((w.containers.find? (fun e => e.1 = n)).map (fun e => e.2))

/-- `container_exists` (line 257): docker inspect succeeds iff the name exists. -/
def container_exists (w : DockerWorld) (n : String) : Bool := (lookupC w n).isSome

/-- `container_running` (line 264). -/
def container_running (w : DockerWorld) (n : String) : Bool :=
  ((lookupC w n).map (fun st => st.running)).getD false

/-- `create_container` (line 268): `docker run -itd` leaves the fresh container
running, with no marker file inside. -/
def create_container (w : DockerWorld) (n : String) : DockerWorld :=
  { w with containers := w.containers ++ [(n, ⟨true, false⟩)] }

def setRunning (st : ContainerState) : ContainerState := { st with running := true }

def setMarker (st : ContainerState) : ContainerState := { st with offloadMarker := true }

/-- `start_container` (line 289). -/
def start_container (w : DockerWorld) (n : String) : DockerWorld :=
  { w with containers :=
      w.containers.map (fun e => if e.1 = n then (e.1, setRunning e.2) else e) }

/-- `disable_offload_once` (lines 296-322): the in-container shell exits 0 at
once when `/tmp/.offload_disabled` exists; otherwise it runs ethtool and touches
the marker only on success.  `ethtoolFails` lists containers where ethtool (or
the docker exec itself) fails; nothing changes there. -/
def disable_offload_once (ethtoolFails : List String) (w : DockerWorld)
    (n : String) : DockerWorld :=
  match lookupC w n with
  | none => w
  | some st =>
    if st.offloadMarker then w
    else if n ∈ ethtoolFails then w
    else
      { containers :=
          w.containers.map (fun e => if e.1 = n then (e.1, setMarker e.2) else e),
        offloadApplied := w.offloadApplied ++ [n] }

/-- Pass 1 of `prepare_pool_once` (lines 529-533): create every absent container,
recording the names created this round. -/
def preparePass1 (w : DockerWorld) : List String → DockerWorld × List String
  | [] => (w, [])
  | n :: ns =>
    if container_exists w n then preparePass1 w ns
    else
      let r := preparePass1 (create_container w n) ns
      (r.1, n :: r.2)

/-- Pass 2 (lines 535-538): start every container not running. -/
def preparePass2 (w : DockerWorld) : List String → DockerWorld
  | [] => w
  | n :: ns =>
    preparePass2 (if container_running w n then w else start_container w n) ns

/-- Pass 3 (lines 540-542): apply the one-time offload configuration to the
containers created this round. -/
def preparePass3 (ethtoolFails : List String) (w : DockerWorld) :
    List String → DockerWorld
  | [] => w
  | n :: ns => preparePass3 ethtoolFails (disable_offload_once ethtoolFails w n) ns

/-- `prepare_pool_once` (lines 514-544). -/
def prepare_pool_once (ethtoolFails : List String) (names : List String)
    (w : DockerWorld) : DockerWorld :=
  let p1 := preparePass1 w names
  preparePass3 ethtoolFails (preparePass2 p1.1 names) p1.2

/-- `build_container_names` (line 339). -/
def build_container_names (pre : String) (startIdx endIdx : Nat) : List String :=
  (List.range (endIdx + 1 - startIdx)).map (fun i => pre ++ toString (startIdx + i))

/-! ### The batch controller (`main`, news_receiver_traffic.py, lines 554-624) -/

/-- The tables the run polls (lines 55-60; only dailymail is enabled). -/
def TABLES_CONFIG : List (String × String) := [("dailymail_content", "dailymail.co.uk")]

inductive LoopDecision
  | runBatch (jobs : List Job)
  | exitLoop
  deriving Repr, DecidableEq

/-- One round of fetching in the outer loop (lines 574-582): one fetch per
configured table, merged into a single job list. -/
def round_fetch (dbError : Bool) (db : Database) : List (List Job) :=
  TABLES_CONFIG.map (fun tc => fetch_jobs_from_db dbError db tc.1 tc.2 BATCH_SIZE)

/-- The decision the outer loop takes on the merged fetch result (lines 584-586):
`if not all_jobs: break` — an empty round terminates the whole run (teardown
follows); a non-empty round dispatches the batch.  `NO_TASK_SLEEP_SECONDS` is
never consulted. -/
def batch_controller_step (fetched : List (List Job)) : LoopDecision :=
  let allJobs := fetched.flatten
  if allJobs.isEmpty then .exitLoop else .runBatch allJobs

/-! ### Concrete sample data used by witnesses -/

def sampleRow : BacklogRow :=
  { id := 1, url := some "https://www.dailymail.co.uk/a", classify_status := none,
    traffic_status := none, pcap_path := none, ssl_key_path := none,
    content_path := none, html_path := none, traffic_feature := none }

def sampleDb : Database := [("dailymail_content", [sampleRow])]

/-- A backlog row that is unclaimed (`pcap_path` NULL) but has an empty `url`. -/
def noUrlRow : BacklogRow :=
  { id := 7, url := some "", classify_status := none, traffic_status := none,
    pcap_path := none, ssl_key_path := none, content_path := none,
    html_path := none, traffic_feature := none }

/-! ### Helper lemmas on the database embedding -/

theorem aux_markDoneRow_flag (i : Nat) (p s c h : String) (x : BacklogRow) :
    (markDoneRow i p s c h x).2 = true ↔ (x.id = i ∧ pcapEmpty x = true) := by
  by_cases hc : x.id = i ∧ pcapEmpty x = true <;> simp [markDoneRow, hc]

theorem aux_markDoneRow_nomatch (i : Nat) (p s c h : String) (x : BacklogRow)
    (hc : ¬(x.id = i ∧ pcapEmpty x = true)) : markDoneRow i p s c h x = (x, false) := by
  simp [markDoneRow, hc]

theorem aux_markDoneRow_id (i : Nat) (p s c h : String) (x : BacklogRow) :
    (markDoneRow i p s c h x).1.id = x.id := by
  by_cases hc : x.id = i ∧ pcapEmpty x = true <;> simp [markDoneRow, hc]

theorem aux_markFailedRow_flag (i : Nat) (x : BacklogRow) :
    (markFailedRow i x).2 = true ↔ (x.id = i ∧ pcapEmpty x = true) := by
  by_cases hc : x.id = i ∧ pcapEmpty x = true <;> simp [markFailedRow, hc]

theorem aux_find_isSome_of_mem (db : Database) (t : String) (r : BacklogRow)
    (h : r ∈ dbGet db t) : (db.find? (fun e => e.1 = t)).isSome = true := by
  unfold dbGet at h
  cases hf : db.find? (fun e => e.1 = t) with
  | none => rw [hf] at h; simp at h
  | some e => rfl

theorem aux_dbGet_dbSet (db : Database) (t : String) (rows : Table)
    (h : (db.find? (fun e => e.1 = t)).isSome = true) :
    dbGet (dbSet db t rows) t = rows := by
  induction db with
  | nil => simp [List.find?] at h
  | cons e es ih =>
    by_cases he : e.1 = t
    · simp [dbSet, dbGet, List.find?, he]
    · have h' : (es.find? (fun e => e.1 = t)).isSome = true := by
        simpa [List.find?, he] using h
      simpa [dbSet, dbGet, List.find?, he] using ih h'

theorem aux_find_isSome_dbSet (db : Database) (t : String) (rows : Table) :
    ((dbSet db t rows).find? (fun e => e.1 = t)).isSome
      = (db.find? (fun e => e.1 = t)).isSome := by
  induction db with
  | nil => rfl
  | cons e es ih =>
    by_cases he : e.1 = t <;> simp [dbSet, List.find?, he] at ih ⊢ <;> simpa using ih

theorem aux_findRow_unique (l : Table) (r : BacklogRow) (i : Nat)
    (hm : r ∈ l) (hu : ∀ x ∈ l, x.id = i → x = r) (hi : r.id = i) :
    findRow l i = some r := by
  induction l with
  | nil => simp at hm
  | cons x xs ih =>
    by_cases hx : x.id = i
    · have hxr : x = r := hu x (by simp) hx
      subst hxr
      simp [findRow, List.find?, hx]
    · have hm' : r ∈ xs := by
        rcases List.mem_cons.mp hm with h | h
        · exact absurd (h ▸ hi) hx
        · exact h
      have := ih hm' (fun y hy => hu y (List.mem_cons_of_mem _ hy))
      simpa [findRow, List.find?, hx] using this

theorem aux_map_id_of (l : Table) (f : BacklogRow → BacklogRow)
    (h : ∀ x ∈ l, f x = x) : l.map f = l := by
  induction l with
  | nil => rfl
  | cons a as ih =>
    simp only [List.map_cons, h a (by simp)]
    rw [ih (fun x hx => h x (List.mem_cons_of_mem _ hx))]

/-- After a first `markDone` with a nonempty path went through, no row of the
updated table still matches the conditional guard for the same id. -/
theorem aux_second_update_unmatched
    (rows : Table) (i : Nat) (p1 s1 c1 h1 : String)
    (hp1 : p1 ≠ "")
    (x : BacklogRow) (hx : x ∈ rows.map (fun y => (markDoneRow i p1 s1 c1 h1 y).1)) :
    ¬(x.id = i ∧ pcapEmpty x = true) := by
  rintro ⟨hxi, hxe⟩
  rcases List.mem_map.mp hx with ⟨y, hy, hyx⟩
  by_cases hyi : y.id = i ∧ pcapEmpty y = true
  · have hval : (markDoneRow i p1 s1 c1 h1 y).1
        = { y with classify_status := some 0, traffic_status := some 0,
                   pcap_path := some p1, ssl_key_path := some s1,
                   content_path := some c1, html_path := some h1,
                   traffic_feature := none } := by
      simp [markDoneRow, hyi]
    rw [hval] at hyx
    rw [← hyx] at hxe
    simp [pcapEmpty] at hxe
    exact hp1 hxe
  · rw [aux_markDoneRow_nomatch i p1 s1 c1 h1 y hyi] at hyx
    simp at hyx
    subst hyx
    exact hyi ⟨hxi, hxe⟩

/-- C2: `markDone`'s conditional update (`upload_single_record_to_db`) succeeds
(returns true) if and only if the target row's `pcap_path` is NULL or empty at
update time; consequently, of two serialized `markDone` calls for the same id
with a nonempty winner path, exactly the first returns true and the row's final
path columns are the winner's. -/
theorem markDone_conditional_at_most_once
    (db : Database) (domain : String) (i : Nat) (r : BacklogRow)
    (p1 s1 c1 h1 p2 s2 c2 h2 : String)
    (htab : get_table_name domain ≠ "")
    (hmem : r ∈ dbGet db (get_table_name domain))
    (huniq : ∀ x ∈ dbGet db (get_table_name domain), x.id = i → x = r)
    (hid : r.id = i) :
    ((upload_single_record_to_db false db domain i p1 s1 c1 h1).2 = true
        ↔ pcapEmpty r = true)
    ∧ (pcapEmpty r = true → p1 ≠ "" →
        (upload_single_record_to_db false db domain i p1 s1 c1 h1).2 = true
        ∧ (upload_single_record_to_db false
            (upload_single_record_to_db false db domain i p1 s1 c1 h1).1
            domain i p2 s2 c2 h2).2 = false
        ∧ findRow (dbGet (upload_single_record_to_db false
              (upload_single_record_to_db false db domain i p1 s1 c1 h1).1
              domain i p2 s2 c2 h2).1 (get_table_name domain)) i
            = some { r with classify_status := some 0, traffic_status := some 0,
                            pcap_path := some p1, ssl_key_path := some s1,
                            content_path := some c1, html_path := some h1,
                            traffic_feature := none }) := by
  have hfind : (db.find? (fun e => e.1 = get_table_name domain)).isSome = true :=
    aux_find_isSome_of_mem db _ r hmem
  have hu : ∀ p s c h : String, ∀ dbx : Database,
      upload_single_record_to_db false dbx domain i p s c h
        = (dbSet dbx (get_table_name domain)
            ((dbGet dbx (get_table_name domain)).map (fun x => (markDoneRow i p s c h x).1)),
           decide (0 < (dbGet dbx (get_table_name domain)).countP
             (fun x => (markDoneRow i p s c h x).2))) := by
    intro p s c h dbx
    simp [upload_single_record_to_db, htab, updateRows]
  have hiff : ∀ p s c h : String,
      ((upload_single_record_to_db false db domain i p s c h).2 = true
        ↔ pcapEmpty r = true) := by
    intro p s c h
    rw [hu]
    simp only [decide_eq_true_eq]
    rw [List.countP_pos_iff]
    constructor
    · rintro ⟨x, hx, hfx⟩
      have hh := (aux_markDoneRow_flag i p s c h x).mp hfx
      exact (huniq x hx hh.1) ▸ hh.2
    · intro hpc
      exact ⟨r, hmem, (aux_markDoneRow_flag i p s c h r).mpr ⟨hid, hpc⟩⟩
  refine ⟨hiff p1 s1 c1 h1, fun hpc hp1 => ?_⟩
  have hrows1 : dbGet (upload_single_record_to_db false db domain i p1 s1 c1 h1).1
      (get_table_name domain)
      = (dbGet db (get_table_name domain)).map (fun x => (markDoneRow i p1 s1 c1 h1 x).1) := by
    rw [hu]
    exact aux_dbGet_dbSet db _ _ hfind
  have hunm := aux_second_update_unmatched (dbGet db (get_table_name domain)) i
    p1 s1 c1 h1 hp1
  have hcnt : (dbGet (upload_single_record_to_db false db domain i p1 s1 c1 h1).1
      (get_table_name domain)).countP (fun x => (markDoneRow i p2 s2 c2 h2 x).2) = 0 := by
    rw [hrows1, List.countP_eq_zero]
    intro x hx
    rw [aux_markDoneRow_flag]
    exact hunm x hx
  refine ⟨(hiff p1 s1 c1 h1).mpr hpc, ?_, ?_⟩
  · rw [hu]
    simp [hcnt]
  · have hfind1 : ((upload_single_record_to_db false db domain i p1 s1 c1 h1).1.find?
        (fun e => e.1 = get_table_name domain)).isSome = true := by
      rw [hu]
      rw [aux_find_isSome_dbSet]
      exact hfind
    have hmapid : (dbGet (upload_single_record_to_db false db domain i p1 s1 c1 h1).1
        (get_table_name domain)).map (fun x => (markDoneRow i p2 s2 c2 h2 x).1)
        = dbGet (upload_single_record_to_db false db domain i p1 s1 c1 h1).1
            (get_table_name domain) := by
      apply aux_map_id_of
      intro x hx
      have hnx := hunm x (hrows1 ▸ hx)
      rw [aux_markDoneRow_nomatch i p2 s2 c2 h2 x hnx]
    have hget2 : dbGet (upload_single_record_to_db false
        (upload_single_record_to_db false db domain i p1 s1 c1 h1).1
        domain i p2 s2 c2 h2).1 (get_table_name domain)
        = dbGet (upload_single_record_to_db false db domain i p1 s1 c1 h1).1
            (get_table_name domain) := by
      conv_lhs => rw [hu]
      rw [aux_dbGet_dbSet _ _ _ hfind1]
      exact hmapid
    rw [hget2, hrows1]
    apply aux_findRow_unique
    · refine List.mem_map.mpr ⟨r, hmem, ?_⟩
      simp [markDoneRow, hid, hpc]
    · intro x hx hxi
      rcases List.mem_map.mp hx with ⟨y, hy, hyx⟩
      have hyi : y.id = i := by
        rw [← hyx] at hxi
        rw [aux_markDoneRow_id] at hxi
        exact hxi
      have hyr := huniq y hy hyi
      subst hyr
      rw [← hyx]
      simp [markDoneRow, hid, hpc]
    · simpa using hid

/-- The winner's row after the first `markDone` of the witness scenario. -/
def winnerRow : BacklogRow :=
  { sampleRow with classify_status := some 0, traffic_status := some 0,
                   pcap_path := some "/netdisk/p1", ssl_key_path := some "/netdisk/s1",
                   content_path := some "/netdisk/c1", html_path := some "/netdisk/h1",
                   traffic_feature := none }

theorem markDone_conditional_at_most_once_witness :
    ((upload_single_record_to_db false sampleDb "dailymail.co.uk" 1 "/netdisk/p1" "/netdisk/s1"
        "/netdisk/c1" "/netdisk/h1").2 = true ↔ pcapEmpty sampleRow = true)
    ∧ (pcapEmpty sampleRow = true → "/netdisk/p1" ≠ "" →
        (upload_single_record_to_db false sampleDb "dailymail.co.uk" 1 "/netdisk/p1" "/netdisk/s1"
            "/netdisk/c1" "/netdisk/h1").2 = true
        ∧ (upload_single_record_to_db false
            (upload_single_record_to_db false sampleDb "dailymail.co.uk" 1 "/netdisk/p1"
              "/netdisk/s1" "/netdisk/c1" "/netdisk/h1").1
            "dailymail.co.uk" 1 "/netdisk/p2" "/netdisk/s2" "/netdisk/c2" "/netdisk/h2").2 = false
        ∧ findRow (dbGet (upload_single_record_to_db false
              (upload_single_record_to_db false sampleDb "dailymail.co.uk" 1 "/netdisk/p1"
                "/netdisk/s1" "/netdisk/c1" "/netdisk/h1").1
              "dailymail.co.uk" 1 "/netdisk/p2" "/netdisk/s2" "/netdisk/c2" "/netdisk/h2").1
              (get_table_name "dailymail.co.uk")) 1
            = some winnerRow) :=
  markDone_conditional_at_most_once sampleDb "dailymail.co.uk" 1 sampleRow
    "/netdisk/p1" "/netdisk/s1" "/netdisk/c1" "/netdisk/h1"
    "/netdisk/p2" "/netdisk/s2" "/netdisk/c2" "/netdisk/h2"
    (by decide) (by decide) (by decide) (by decide)

/-- C10: `markFailed` (`mark_failed_record_to_db`) writes only the `pcap_path`
column, setting it to the sentinel `'error'` and leaving every other column of
every row unchanged; it returns true iff the target row's `pcap_path` was NULL
or empty; and on a database error it returns false with the database unchanged. -/
theorem markFailed_pcap_only_frame
    (db : Database) (domain : String) (i : Nat) (r : BacklogRow)
    (htab : get_table_name domain ≠ "")
    (hmem : r ∈ dbGet db (get_table_name domain))
    (huniq : ∀ x ∈ dbGet db (get_table_name domain), x.id = i → x = r)
    (hid : r.id = i) :
    (dbGet (mark_failed_record_to_db false db domain i).1 (get_table_name domain)
        = (dbGet db (get_table_name domain)).map
            (fun x => if x.id = i ∧ pcapEmpty x = true
                      then { x with pcap_path := some "error" } else x))
    ∧ (∀ x ∈ dbGet db (get_table_name domain),
        ((if x.id = i ∧ pcapEmpty x = true
          then { x with pcap_path := some "error" } else x) : BacklogRow).id = x.id
        ∧ ((if x.id = i ∧ pcapEmpty x = true
            then { x with pcap_path := some "error" } else x) : BacklogRow).url = x.url
        ∧ ((if x.id = i ∧ pcapEmpty x = true
            then { x with pcap_path := some "error" } else x) : BacklogRow).classify_status
            = x.classify_status
        ∧ ((if x.id = i ∧ pcapEmpty x = true
            then { x with pcap_path := some "error" } else x) : BacklogRow).traffic_status
            = x.traffic_status
        ∧ ((if x.id = i ∧ pcapEmpty x = true
            then { x with pcap_path := some "error" } else x) : BacklogRow).ssl_key_path
            = x.ssl_key_path
        ∧ ((if x.id = i ∧ pcapEmpty x = true
            then { x with pcap_path := some "error" } else x) : BacklogRow).content_path
            = x.content_path
        ∧ ((if x.id = i ∧ pcapEmpty x = true
            then { x with pcap_path := some "error" } else x) : BacklogRow).html_path
            = x.html_path
        ∧ ((if x.id = i ∧ pcapEmpty x = true
            then { x with pcap_path := some "error" } else x) : BacklogRow).traffic_feature
            = x.traffic_feature)
    ∧ ((mark_failed_record_to_db false db domain i).2 = true ↔ pcapEmpty r = true)
    ∧ mark_failed_record_to_db true db domain i = (db, false) := by
  have hfind : (db.find? (fun e => e.1 = get_table_name domain)).isSome = true :=
    aux_find_isSome_of_mem db _ r hmem
  have hu : mark_failed_record_to_db false db domain i
      = (dbSet db (get_table_name domain)
          ((dbGet db (get_table_name domain)).map (fun x => (markFailedRow i x).1)),
         decide (0 < (dbGet db (get_table_name domain)).countP
           (fun x => (markFailedRow i x).2))) := by
    simp [mark_failed_record_to_db, htab, updateRows]
  refine ⟨?_, ?_, ?_, ?_⟩
  · rw [hu]
    rw [aux_dbGet_dbSet db _ _ hfind]
    apply List.map_congr_left
    intro x hx
    by_cases hc : x.id = i ∧ pcapEmpty x = true <;> simp [markFailedRow, hc]
  · intro x hx
    by_cases hc : x.id = i ∧ pcapEmpty x = true <;> simp [hc]
  · rw [hu]
    simp only [decide_eq_true_eq]
    rw [List.countP_pos_iff]
    constructor
    · rintro ⟨x, hx, hfx⟩
      have hh := (aux_markFailedRow_flag i x).mp hfx
      exact (huniq x hx hh.1) ▸ hh.2
    · intro hpc
      exact ⟨r, hmem, (aux_markFailedRow_flag i r).mpr ⟨hid, hpc⟩⟩
  · by_cases h0 : get_table_name domain = "" <;> simp [mark_failed_record_to_db, h0]

theorem markFailed_pcap_only_frame_witness :
    (dbGet (mark_failed_record_to_db false sampleDb "dailymail.co.uk" 1).1
        (get_table_name "dailymail.co.uk")
      = (dbGet sampleDb (get_table_name "dailymail.co.uk")).map
          (fun x => if x.id = 1 ∧ pcapEmpty x = true
                    then { x with pcap_path := some "error" } else x))
    ∧ ((mark_failed_record_to_db false sampleDb "dailymail.co.uk" 1).2 = true
        ↔ pcapEmpty sampleRow = true)
    ∧ mark_failed_record_to_db true sampleDb "dailymail.co.uk" 1 = (sampleDb, false) := by
  have h := markFailed_pcap_only_frame sampleDb "dailymail.co.uk" 1 sampleRow
    (by decide) (by decide) (by decide) (by decide)
  exact ⟨h.1, h.2.2.1, h.2.2.2⟩

/-- C3 (counterexample to the claim as stated): a backlog row whose completion
column `pcap_path` is NULL is nevertheless not returned by the fetch, because
the query also filters on `url IS NOT NULL AND url <> ''` — here the row's url
is the empty string, so the batch comes back empty. -/
theorem fetchBatch_claim_counterexample :
    pcapEmpty noUrlRow = true
    ∧ noUrlRow ∈ dbGet [("dailymail_content", [noUrlRow])] "dailymail_content"
    ∧ fetch_jobs_from_db false [("dailymail_content", [noUrlRow])] "dailymail_content"
        "dailymail.co.uk" BATCH_SIZE = [] := by
  refine ⟨by decide, by decide, by decide⟩

/-- C3 (amended): `fetch_jobs_from_db` returns, in ascending id order, up to
`limit` of exactly those rows whose `pcap_path` is NULL or empty AND whose `url`
is non-NULL and nonempty; it never returns a row already marked done or with the
`'error'` sentinel, and returns the empty list when no such row remains.  The
fetch itself is a read-only SELECT (modelled as a pure function of the
database). -/
theorem fetchBatch_amended_spec (db : Database) (t d : String) (lim : Nat) :
    (fetch_jobs_from_db false db t d lim).length ≤ lim
    ∧ (∀ j ∈ fetch_jobs_from_db false db t d lim, ∃ r ∈ dbGet db t,
        r.id = j.row_id ∧ pcapEmpty r = true ∧ urlPresent r = true)
    ∧ List.Sorted (fun a b : Nat => a ≤ b)
        ((fetch_jobs_from_db false db t d lim).map Job.row_id)
    ∧ ((∀ r ∈ dbGet db t, (pcapEmpty r && urlPresent r) = false) →
        fetch_jobs_from_db false db t d lim = [])
    ∧ ((dbGet db t).countP (fun r => pcapEmpty r && urlPresent r) ≤ lim →
        ∀ r ∈ dbGet db t, pcapEmpty r = true → urlPresent r = true →
          r.id ∈ (fetch_jobs_from_db false db t d lim).map Job.row_id) := by
  have hf : fetch_jobs_from_db false db t d lim
      = ((((dbGet db t).filter (fun r => pcapEmpty r && urlPresent r)).insertionSort
          rowIdLe).take lim).map
        (fun r =>
          let u := r.url.getD ""
          { row_id := r.id,
            url := if t = "wikicontent" then "https://zh.wikipedia.org/wiki/" ++ u else u,
            domain := d, container := "" }) := by
    simp [fetch_jobs_from_db]
  have hperm := List.perm_insertionSort rowIdLe
    ((dbGet db t).filter (fun r => pcapEmpty r && urlPresent r))
  refine ⟨?_, ?_, ?_, ?_, ?_⟩
  · rw [hf]
    simp only [List.length_map, List.length_take]
    exact min_le_left _ _
  · intro j hj
    rw [hf] at hj
    rcases List.mem_map.mp hj with ⟨r, hr, hjr⟩
    have hrS := List.mem_of_mem_take hr
    have hrF := hperm.mem_iff.mp hrS
    rcases List.mem_filter.mp hrF with ⟨hrdb, hpred⟩
    have hpu : pcapEmpty r = true ∧ urlPresent r = true := by simpa using hpred
    exact ⟨r, hrdb, by rw [← hjr], hpu.1, hpu.2⟩
  · rw [hf, List.map_map]
    have hS : List.Sorted rowIdLe
        (((dbGet db t).filter (fun r => pcapEmpty r && urlPresent r)).insertionSort
          rowIdLe) :=
      List.sorted_insertionSort rowIdLe _
    have hT := hS.sublist (List.take_sublist lim _)
    exact List.Pairwise.map _ (fun a b h => h) hT
  · intro h
    rw [hf]
    have hnil : (dbGet db t).filter (fun r => pcapEmpty r && urlPresent r) = [] :=
      List.filter_eq_nil_iff.mpr (fun r hr => by simp [h r hr])
    rw [hnil]
    simp
  · intro hcnt r hr hp hu
    rw [hf, List.map_map]
    have hlenF : ((dbGet db t).filter (fun r => pcapEmpty r && urlPresent r)).length ≤ lim := by
      rw [← List.countP_eq_length_filter]
      exact hcnt
    have hlenS := hperm.length_eq
    have htake : (((dbGet db t).filter (fun r => pcapEmpty r && urlPresent r)).insertionSort
        rowIdLe).take lim
        = ((dbGet db t).filter (fun r => pcapEmpty r && urlPresent r)).insertionSort rowIdLe :=
      List.take_of_length_le (by rw [hlenS]; exact hlenF)
    rw [htake]
    refine List.mem_map.mpr ⟨r, ?_, rfl⟩
    exact hperm.mem_iff.mpr (List.mem_filter.mpr ⟨hr, by simp [hp, hu]⟩)

theorem fetchBatch_amended_spec_witness :
    (1 : Nat) ∈ (fetch_jobs_from_db false sampleDb "dailymail_content"
      "dailymail.co.uk" 10).map Job.row_id :=
  (fetchBatch_amended_spec sampleDb "dailymail_content" "dailymail.co.uk" 10).2.2.2.2
    (by decide) sampleRow (by decide) (by decide) (by decide)

/-- C6: a connectivity error during a fetch round is swallowed and surfaces as
an empty batch — but the outer loop of `main` then takes the `exitLoop` branch
(`if not all_jobs: break`), ending the whole run, instead of sleeping
`NO_TASK_SLEEP_SECONDS` and polling again as the module docstring (lines 13-16)
and the unused constant at line 49 prescribe. -/
theorem fetch_error_empty_round_exits_loop (db : Database) :
    fetch_jobs_from_db true db "dailymail_content" "dailymail.co.uk" BATCH_SIZE = []
    ∧ batch_controller_step (round_fetch true db) = LoopDecision.exitLoop :=
  ⟨rfl, rfl⟩

theorem aux_check_isSome (a b : ℚ) :
    (wait_before_exec_check a b).isSome = true ↔ a + EXEC_INTERVAL ≤ b := by
  simp [wait_before_exec_check, sub_nonpos]

theorem aux_trace_chain (ts : List ℚ) : ∀ lastTs : ℚ,
    validDispatchTrace lastTs ts = true →
    List.Chain' (fun a b : ℚ => a + EXEC_INTERVAL ≤ b) ts
    ∧ ∀ x ∈ ts.head?, lastTs + EXEC_INTERVAL ≤ x := by
  induction ts with
  | nil =>
    intro lastTs _
    exact ⟨List.chain'_nil, by simp⟩
  | cons t rest ih =>
    intro lastTs h
    have hsplit : (wait_before_exec_check lastTs t).isSome = true
        ∧ validDispatchTrace t rest = true := by
      simpa [validDispatchTrace] using h
    have hrest := ih t hsplit.2
    refine ⟨?_, ?_⟩
    · rw [List.chain'_cons']
      exact ⟨hrest.2, hrest.1⟩
    · intro x hx
      have hxt : t = x := by simpa using hx
      subst hxt
      exact (aux_check_isSome _ _).mp hsplit.1

/-- C7: in every possible run of the throttle (`_wait_before_exec`), the
recorded dispatch start timestamps are pairwise at least `EXEC_INTERVAL`
seconds apart: each recorded timestamp is at least `EXEC_INTERVAL` after the
previously recorded one, and hence any later dispatch starts at least
`EXEC_INTERVAL` after any earlier one, independent of thread interleaving
(the mutex makes each check-and-record atomic). -/
theorem throttle_min_spacing (lastTs : ℚ) (ts : List ℚ)
    (h : validDispatchTrace lastTs ts = true) :
    List.Chain' (fun a b : ℚ => a + EXEC_INTERVAL ≤ b) ts
    ∧ (∀ i j, i < j → j < ts.length →
        ts.getD i 0 + EXEC_INTERVAL ≤ ts.getD j 0) := by
  have hchain := (aux_trace_chain ts lastTs h).1
  refine ⟨hchain, ?_⟩
  have htrans : Transitive (fun a b : ℚ => a + EXEC_INTERVAL ≤ b) := by
    intro a b c hab hbc
    have hb : b ≤ b + EXEC_INTERVAL := by
      have : (0 : ℚ) ≤ EXEC_INTERVAL := by norm_num [EXEC_INTERVAL]
      linarith
    linarith
  haveI : IsTrans ℚ (fun a b : ℚ => a + EXEC_INTERVAL ≤ b) :=
    ⟨fun _ _ _ hab hbc => htrans hab hbc⟩
  have hpw : List.Pairwise (fun a b : ℚ => a + EXEC_INTERVAL ≤ b) ts :=
    (List.chain'_iff_pairwise (R := fun a b : ℚ => a + EXEC_INTERVAL ≤ b)).mp hchain
  intro i j hij hj
  have hi : i < ts.length := lt_trans hij hj
  have hg := List.pairwise_iff_getElem.mp hpw i j hi hj hij
  rw [List.getD_eq_getElem?_getD, List.getD_eq_getElem?_getD,
    List.getElem?_eq_getElem hi, List.getElem?_eq_getElem hj]
  simpa using hg

theorem throttle_min_spacing_witness :
    List.Chain' (fun a b : ℚ => a + EXEC_INTERVAL ≤ b) [1, 2, 3]
    ∧ (∀ i j, i < j → j < ([1, 2, 3] : List ℚ).length →
        ([1, 2, 3] : List ℚ).getD i 0 + EXEC_INTERVAL ≤ ([1, 2, 3] : List ℚ).getD j 0) :=
  throttle_min_spacing 0 [1, 2, 3]
    (by simp [validDispatchTrace, wait_before_exec_check, EXEC_INTERVAL,
          one_add_one_eq_two, two_add_one_eq_three])

/-! ### Concrete execution worlds for witnesses -/

def sampleJob : Job :=
  { row_id := 1, url := "https://www.dailymail.co.uk/a",
    domain := "dailymail.co.uk", container := "" }

def okManifest : Manifest :=
  { pcap_path := some "/app/data/1.pcap", ssl_key_file_path := some "/app/data/1.keys",
    content_path := some "/app/data/1.txt", html_path := some "/app/data/1.html",
    screenshot_path := some "/app/data/1.png" }

def okFs : FS :=
  [ (rwPath "/app/data/1.pcap", 1000000), (rwPath "/app/data/1.keys", 5000),
    (rwPath "/app/data/1.txt", 100), (rwPath "/app/data/1.html", 100),
    (rwPath "/app/data/1.png", 100) ]

/-- A fully successful attempt: exit 0, complete manifest, all five artifacts
present, no move fault. -/
def okWorld : ExecWorld :=
  { exitCode := 0, errText := "", manifest := some okManifest, fs := okFs,
    moveFault := [], dbError := false }

/-- Same world, but the first `shutil.move` raises an I/O error mid-move. -/
def faultWorld : ExecWorld := { okWorld with moveFault := [false, true] }


/-! ### Worker-loop lemmas -/

theorem aux_exec_once_ok (w : ExecWorld) (task : Job) (db : Database) :
    (exec_once w task db).ok = (exec_attempt_core w task).ok := by
  by_cases hc : (exec_attempt_core w task).ok = true <;> simp [exec_once, hc]

theorem aux_attemptOnce_fail_db (aw : AttemptWorld) (task : Job) (db : Database)
    (h : (attemptOnce aw task db).1 = false) : (attemptOnce aw task db).2.2 = db := by
  cases aw with
  | runs w =>
    by_cases hc : (exec_attempt_core w task).ok = true
    · exfalso
      simp [attemptOnce, exec_once, hc] at h
    · simp [attemptOnce, exec_once, hc]
  | timeout => rfl
  | raised e => rfl

theorem aux_runAttempts_all_fail (worlds : Nat → AttemptWorld) (task : Job)
    (hfail : ∀ n dbx, (attemptOnce (worlds n) task dbx).1 = false)
    (l : List Nat) (db : Database) :
    (runAttempts worlds task l db).1 = false
    ∧ (runAttempts worlds task l db).2.2.1 = db
    ∧ (runAttempts worlds task l db).2.2.2.1 = l
    ∧ (runAttempts worlds task l db).2.2.2.2
        = List.replicate (l.length - 1) RETRY_SLEEP_SECONDS := by
  induction l generalizing db with
  | nil => simp [runAttempts]
  | cons n rest ih =>
    cases rest with
    | nil =>
      have h1 := hfail n db
      have hdb := aux_attemptOnce_fail_db (worlds n) task db h1
      simp [runAttempts, h1, hdb]
    | cons m rest2 =>
      have h1 := hfail n db
      have hdb := aux_attemptOnce_fail_db (worlds n) task db h1
      have ihr := ih (attemptOnce (worlds n) task db).2.2
      simp [runAttempts, h1, hdb] at ihr ⊢
      refine ⟨ihr.1, ihr.2.1, ihr.2.2.1, ?_⟩
      rw [ihr.2.2.2]
      simp [List.replicate_succ]

/-- C1: for a job whose environment invocation fails on every attempt, the
worker performs exactly `R+1` attempts (the first plus `R` retries), every
attempt bound to the same container, with the fixed `RETRY_SLEEP_SECONDS` delay
between consecutive attempts; afterwards `markFailed` is invoked exactly once,
on the job's row, and the failure counter increases by one while the success
counter is untouched. -/
theorem worker_retry_bound (worlds : Nat → AttemptWorld) (mfError : Bool)
    (container : String) (task : Job) (R : Nat) (db : Database) (stats : Stats)
    (hfail : ∀ n dbx,
      (attemptOnce (worlds n) { task with container := container } dbx).1 = false)
    (hdom : task.domain ≠ "") :
    (worker_process_one worlds mfError container task R db stats).2.2.attempts.length = R + 1
    ∧ (∀ a ∈ (worker_process_one worlds mfError container task R db stats).2.2.attempts,
        a.2 = container)
    ∧ (worker_process_one worlds mfError container task R db stats).2.2.sleeps
        = List.replicate R RETRY_SLEEP_SECONDS
    ∧ (worker_process_one worlds mfError container task R db stats).2.2.markFailedCalls = 1
    ∧ (worker_process_one worlds mfError container task R db stats).1
        = (mark_failed_record_to_db mfError db task.domain task.row_id).1
    ∧ (worker_process_one worlds mfError container task R db stats).2.1.fail = stats.fail + 1
    ∧ (worker_process_one worlds mfError container task R db stats).2.1.ok = stats.ok := by
  have hall := aux_runAttempts_all_fail worlds { task with container := container } hfail
    (List.range (R + 1)) db
  have hdom' : ({ task with container := container } : Job).domain ≠ "" := hdom
  simp only [worker_process_one, hall.1, hall.2.1, hall.2.2.1, hall.2.2.2,
    Bool.false_eq_true, if_false, hdom', ne_eq, not_false_eq_true, if_true]
  refine ⟨?_, ?_, ?_, ?_, ?_, ?_, ?_⟩
  · simp
  · intro a ha
    rcases List.mem_map.mp ha with ⟨n, _, hn⟩
    rw [← hn]
  · simp
  · simp [hdom']
  · simp [hdom']
  · simp
  · simp

def stats0 : Stats := { ok := 0, fail := 0, errors := [] }

theorem worker_retry_bound_witness :
    (worker_process_one (fun _ => AttemptWorld.timeout) false "news_traffic0" sampleJob RETRY
        sampleDb stats0).2.2.attempts.length = RETRY + 1
    ∧ (∀ a ∈ (worker_process_one (fun _ => AttemptWorld.timeout) false "news_traffic0" sampleJob
        RETRY sampleDb stats0).2.2.attempts, a.2 = "news_traffic0")
    ∧ (worker_process_one (fun _ => AttemptWorld.timeout) false "news_traffic0" sampleJob RETRY
        sampleDb stats0).2.2.sleeps = List.replicate RETRY RETRY_SLEEP_SECONDS
    ∧ (worker_process_one (fun _ => AttemptWorld.timeout) false "news_traffic0" sampleJob RETRY
        sampleDb stats0).2.2.markFailedCalls = 1
    ∧ (worker_process_one (fun _ => AttemptWorld.timeout) false "news_traffic0" sampleJob RETRY
        sampleDb stats0).1
        = (mark_failed_record_to_db false sampleDb sampleJob.domain sampleJob.row_id).1
    ∧ (worker_process_one (fun _ => AttemptWorld.timeout) false "news_traffic0" sampleJob RETRY
        sampleDb stats0).2.1.fail = stats0.fail + 1
    ∧ (worker_process_one (fun _ => AttemptWorld.timeout) false "news_traffic0" sampleJob RETRY
        sampleDb stats0).2.1.ok = stats0.ok :=
  worker_retry_bound (fun _ => AttemptWorld.timeout) false "news_traffic0" sampleJob RETRY
    sampleDb stats0 (fun _ _ => rfl) (by decide)

theorem aux_core_dbError (w : ExecWorld) (b : Bool) (task : Job) :
    exec_attempt_core { w with dbError := b } task = exec_attempt_core w task := by
  cases w
  rfl

theorem aux_core_container (w : ExecWorld) (task : Job) (c : String) :
    exec_attempt_core w { task with container := c } = exec_attempt_core w task := by
  cases task
  rfl

theorem aux_runAttempts_first_success (worlds : Nat → AttemptWorld) (task : Job)
    (R : Nat) (db : Database)
    (h : (attemptOnce (worlds 0) task db).1 = true) :
    runAttempts worlds task (List.range (R + 1)) db
      = (true, (attemptOnce (worlds 0) task db).2.1,
         (attemptOnce (worlds 0) task db).2.2, [0], []) := by
  cases R with
  | zero => simp [List.range_succ, runAttempts, h]
  | succ r =>
    have hr : List.range (r + 1 + 1) = 0 :: 1 :: ((List.range r).map Nat.succ).map Nat.succ := by
      rw [List.range_succ_eq_map, List.range_succ_eq_map]
      simp
    rw [hr]
    simp [runAttempts, h]

/-- C9: when environment execution and artifact relocation succeed
(`exec_attempt_core` reports success), `exec_once` returns success whatever the
backlog write does — error, exception or zero matched rows — and the worker
counts the job in `stats.ok` with a single attempt, no retry and no `markFailed`
invocation; the backlog write outcome never affects the success classification. -/
theorem success_independent_of_backlog_write
    (w : ExecWorld) (task : Job) (b mfError : Bool) (container : String)
    (R : Nat) (db : Database) (stats : Stats)
    (hok : (exec_attempt_core w task).ok = true) :
    (exec_once { w with dbError := b } task db).ok = true
    ∧ (worker_process_one (fun _ => AttemptWorld.runs { w with dbError := b }) mfError container
        task R db stats).2.1.ok = stats.ok + 1
    ∧ (worker_process_one (fun _ => AttemptWorld.runs { w with dbError := b }) mfError container
        task R db stats).2.1.fail = stats.fail
    ∧ (worker_process_one (fun _ => AttemptWorld.runs { w with dbError := b }) mfError container
        task R db stats).2.1.errors = stats.errors
    ∧ (worker_process_one (fun _ => AttemptWorld.runs { w with dbError := b }) mfError container
        task R db stats).2.2.attempts.length = 1
    ∧ (worker_process_one (fun _ => AttemptWorld.runs { w with dbError := b }) mfError container
        task R db stats).2.2.markFailedCalls = 0 := by
  have hok1 : (exec_attempt_core { w with dbError := b } task).ok = true := by
    rw [aux_core_dbError]
    exact hok
  have hokt : (exec_attempt_core { w with dbError := b }
      { task with container := container }).ok = true := by
    rw [aux_core_container]
    exact hok1
  have hexec : (exec_once { w with dbError := b } task db).ok = true := by
    rw [aux_exec_once_ok]
    exact hok1
  have hatt : (attemptOnce (AttemptWorld.runs { w with dbError := b })
      { task with container := container } db).1 = true := by
    simp only [attemptOnce]
    rw [aux_exec_once_ok]
    exact hokt
  have hrun := aux_runAttempts_first_success
    (fun _ => AttemptWorld.runs { w with dbError := b })
    { task with container := container } R db hatt
  refine ⟨hexec, ?_, ?_, ?_, ?_, ?_⟩
  all_goals simp [worker_process_one, hrun]

theorem success_independent_of_backlog_write_witness :
    (exec_once { okWorld with dbError := true } sampleJob sampleDb).ok = true
    ∧ (worker_process_one (fun _ => AttemptWorld.runs { okWorld with dbError := true }) false
        "news_traffic0" sampleJob RETRY sampleDb stats0).2.1.ok = stats0.ok + 1
    ∧ (worker_process_one (fun _ => AttemptWorld.runs { okWorld with dbError := true }) false
        "news_traffic0" sampleJob RETRY sampleDb stats0).2.1.fail = stats0.fail
    ∧ (worker_process_one (fun _ => AttemptWorld.runs { okWorld with dbError := true }) false
        "news_traffic0" sampleJob RETRY sampleDb stats0).2.1.errors = stats0.errors
    ∧ (worker_process_one (fun _ => AttemptWorld.runs { okWorld with dbError := true }) false
        "news_traffic0" sampleJob RETRY sampleDb stats0).2.2.attempts.length = 1
    ∧ (worker_process_one (fun _ => AttemptWorld.runs { okWorld with dbError := true }) false
        "news_traffic0" sampleJob RETRY sampleDb stats0).2.2.markFailedCalls = 0 :=
  success_independent_of_backlog_write okWorld sampleJob true false "news_traffic0" RETRY
    sampleDb stats0 (by decide)

/-! ### File-system lemmas for the relocation step -/

theorem aux_fsExists_mem (fs : FS) (p : FPath) :
    fsExists fs p = true ↔ ∃ sz, (p, sz) ∈ fs := by
  induction fs with
  | nil => simp [fsExists, fsLookup]
  | cons e es ih =>
    by_cases he : e.1 = p
    · constructor
      · intro _
        refine ⟨e.2, ?_⟩
        rw [← he]
        simp
      · intro _
        simp [fsExists, fsLookup, List.find?, he]
    · constructor
      · intro h
        have h' : fsExists es p = true := by
          simpa [fsExists, fsLookup, List.find?, he] using h
        rcases ih.mp h' with ⟨sz, hsz⟩
        exact ⟨sz, List.mem_cons_of_mem _ hsz⟩
      · rintro ⟨sz, hsz⟩
        rcases List.mem_cons.mp hsz with h1 | h1
        · exact absurd (by rw [← h1]) he
        · have := ih.mpr ⟨sz, h1⟩
          simpa [fsExists, fsLookup, List.find?, he] using this

theorem aux_fsRemove_mem (fs : FS) (q p : FPath) (sz : Nat) :
    (p, sz) ∈ fsRemove fs q ↔ (p, sz) ∈ fs ∧ p ≠ q := by
  simp [fsRemove, List.mem_filter]

theorem aux_moveFile_exists (fs : FS) (src dir : FPath) (fs' : FS) (dst : FPath)
    (h : moveFile fs src dir = some (fs', dst)) :
    fsExists fs src = true
    ∧ dst = dir ++ "/" ++ baseName src
    ∧ (∀ p, fsExists fs' p = true ↔ ((fsExists fs p = true ∧ p ≠ src) ∨ p = dst)) := by
  unfold moveFile at h
  cases hl : fsLookup fs src with
  | none =>
    rw [hl] at h
    exact absurd h (by simp)
  | some sz0 =>
    rw [hl] at h
    simp only [Option.some.injEq, Prod.mk.injEq] at h
    refine ⟨by simp [fsExists, hl], h.2.symm, ?_⟩
    intro p
    rw [← h.1, ← h.2]
    rw [aux_fsExists_mem, aux_fsExists_mem]
    constructor
    · rintro ⟨sz, hsz⟩
      rcases List.mem_append.mp hsz with hin | hin
      · rcases (aux_fsRemove_mem fs src p sz).mp hin with ⟨hm, hne⟩
        exact Or.inl ⟨⟨sz, hm⟩, hne⟩
      · right
        simp at hin
        exact hin.1
    · rintro (⟨⟨sz, hm⟩, hne⟩ | rfl)
      · exact ⟨sz, List.mem_append_left _ ((aux_fsRemove_mem fs src p sz).mpr ⟨hm, hne⟩)⟩
      · exact ⟨sz0, List.mem_append_right _ (by simp)⟩

theorem aux_fsRemove_not_exists_self (fs : FS) (q : FPath) :
    fsExists (fsRemove fs q) q = false := by
  by_contra h
  have h' : fsExists (fsRemove fs q) q = true := by
    cases hb : fsExists (fsRemove fs q) q
    · exact absurd hb h
    · rfl
  rcases (aux_fsExists_mem _ _).mp h' with ⟨sz, hsz⟩
  exact ((aux_fsRemove_mem fs q q sz).mp hsz).2 rfl

theorem aux_fsRemove_exists_mono (fs : FS) (q p : FPath)
    (h : fsExists (fsRemove fs q) p = true) : fsExists fs p = true := by
  rcases (aux_fsExists_mem _ _).mp h with ⟨sz, hsz⟩
  exact (aux_fsExists_mem _ _).mpr ⟨sz, ((aux_fsRemove_mem fs q p sz).mp hsz).1⟩

theorem aux_fsRemoveAll_mono (ps : List FPath) :
    ∀ (fs : FS) (p : FPath), fsExists (fsRemoveAll fs ps) p = true → fsExists fs p = true := by
  induction ps with
  | nil => intro fs p h; exact h
  | cons q qs ih =>
    intro fs p h
    exact aux_fsRemove_exists_mono fs q p (ih (fsRemove fs q) p h)

theorem aux_fsRemoveAll_not_exists (ps : List FPath) :
    ∀ (fs : FS) (p : FPath), p ∈ ps → fsExists (fsRemoveAll fs ps) p = false := by
  induction ps with
  | nil => intro fs p h; simp at h
  | cons q qs ih =>
    intro fs p hp
    rcases List.mem_cons.mp hp with rfl | hp'
    · cases hb : fsExists (fsRemoveAll (fsRemove fs p) qs) p
      · exact hb
      · exact absurd (aux_fsRemoveAll_mono qs (fsRemove fs p) p hb)
          (by simp [aux_fsRemove_not_exists_self])
    · exact ih (fsRemove fs q) p hp'

/-! ### Lemmas on the relocation sequence `moveAll` -/

theorem aux_moveAll_eq_fault (faults : List Bool) (k : Nat) (fs : FS)
    (step : FPath × FPath) (rest : List (FPath × FPath))
    (hfa : faults.getD k false = true) :
    moveAll faults k fs (step :: rest) = (fs, [], false) := by
  simp only [moveAll]
  rw [if_pos hfa]

theorem aux_moveAll_eq_none (faults : List Bool) (k : Nat) (fs : FS)
    (step : FPath × FPath) (rest : List (FPath × FPath))
    (hfa : ¬faults.getD k false = true) (hmv : moveFile fs step.1 step.2 = none) :
    moveAll faults k fs (step :: rest) = (fs, [], false) := by
  simp only [moveAll]
  rw [if_neg hfa, hmv]

theorem aux_moveAll_eq_some (faults : List Bool) (k : Nat) (fs : FS)
    (step : FPath × FPath) (rest : List (FPath × FPath)) (fsdst : FS × FPath)
    (hfa : ¬faults.getD k false = true) (hmv : moveFile fs step.1 step.2 = some fsdst) :
    moveAll faults k fs (step :: rest)
      = ((moveAll faults (k + 1) fsdst.1 rest).1,
         fsdst.2 :: (moveAll faults (k + 1) fsdst.1 rest).2.1,
         (moveAll faults (k + 1) fsdst.1 rest).2.2) := by
  simp only [moveAll]
  rw [if_neg hfa, hmv]

theorem aux_moveAll_ok_sources (faults : List Bool) (l : List (FPath × FPath)) :
    ∀ (k : Nat) (fs : FS),
      (∀ p ∈ l.map Prod.fst, p ∉ l.map dstOf) →
      (moveAll faults k fs l).2.2 = true →
      ∀ p ∈ l.map Prod.fst, fsExists fs p = true := by
  induction l with
  | nil =>
    intro k fs _ _ p hp
    simp at hp
  | cons step rest ih =>
    intro k fs hdisj hok p hp
    by_cases hfa : faults.getD k false = true
    · rw [aux_moveAll_eq_fault faults k fs step rest hfa] at hok
      simp at hok
    cases hmv : moveFile fs step.1 step.2 with
    | none =>
      rw [aux_moveAll_eq_none faults k fs step rest hfa hmv] at hok
      simp at hok
    | some fsdst =>
      have hrec : (moveAll faults (k + 1) fsdst.1 rest).2.2 = true := by
        rw [aux_moveAll_eq_some faults k fs step rest fsdst hfa hmv] at hok
        exact hok
      have hmove := aux_moveFile_exists fs step.1 step.2 fsdst.1 fsdst.2 (by rw [hmv])
      rw [List.map_cons] at hp
      rcases List.mem_cons.mp hp with heq | hp'
      · rw [heq]
        exact hmove.1
      · have hdisj' : ∀ q ∈ rest.map Prod.fst, q ∉ rest.map dstOf := by
          intro q hq hqd
          exact hdisj q (by simp [hq]) (by simp [hqd])
        have hex' := ih (k + 1) fsdst.1 hdisj' hrec p hp'
        rcases (hmove.2.2 p).mp hex' with ⟨hfs, _⟩ | heqd
        · exact hfs
        · exfalso
          apply hdisj p (by rw [List.map_cons]; exact hp)
          have hpd : p = dstOf step := by
            rw [heqd, hmove.2.1]
            rfl
          rw [List.map_cons]
          rw [hpd]
          exact List.mem_cons_self _ _

theorem aux_moveAll_preserve (faults : List Bool) (l : List (FPath × FPath)) :
    ∀ (k : Nat) (fs : FS) (d : FPath),
      fsExists fs d = true → d ∉ l.map Prod.fst →
      fsExists (moveAll faults k fs l).1 d = true := by
  induction l with
  | nil => intro k fs d h _; exact h
  | cons step rest ih =>
    intro k fs d h hd
    by_cases hfa : faults.getD k false = true
    · rw [aux_moveAll_eq_fault faults k fs step rest hfa]
      exact h
    cases hmv : moveFile fs step.1 step.2 with
    | none =>
      rw [aux_moveAll_eq_none faults k fs step rest hfa hmv]
      exact h
    | some fsdst =>
      have hmove := aux_moveFile_exists fs step.1 step.2 fsdst.1 fsdst.2 (by rw [hmv])
      have hne : d ≠ step.1 := by
        intro heq
        exact hd (by simp [heq])
      have h' : fsExists fsdst.1 d = true := (hmove.2.2 d).mpr (Or.inl ⟨h, hne⟩)
      have hd' : d ∉ rest.map Prod.fst := fun hmem => hd (by simp [hmem])
      rw [aux_moveAll_eq_some faults k fs step rest fsdst hfa hmv]
      exact ih (k + 1) fsdst.1 d h' hd'

theorem aux_moveAll_dsts (faults : List Bool) (l : List (FPath × FPath)) :
    ∀ (k : Nat) (fs : FS),
      (∀ p ∈ l.map Prod.fst, p ∉ l.map dstOf) →
      ∀ d ∈ (moveAll faults k fs l).2.1,
        fsExists (moveAll faults k fs l).1 d = true := by
  induction l with
  | nil =>
    intro k fs _ d hd
    simp [moveAll] at hd
  | cons step rest ih =>
    intro k fs hdisj d hd
    by_cases hfa : faults.getD k false = true
    · rw [aux_moveAll_eq_fault faults k fs step rest hfa] at hd
      simp at hd
    cases hmv : moveFile fs step.1 step.2 with
    | none =>
      rw [aux_moveAll_eq_none faults k fs step rest hfa hmv] at hd
      simp at hd
    | some fsdst =>
      have hmove := aux_moveFile_exists fs step.1 step.2 fsdst.1 fsdst.2 (by rw [hmv])
      have hdisj' : ∀ q ∈ rest.map Prod.fst, q ∉ rest.map dstOf := by
        intro q hq hqd
        exact hdisj q (by simp [hq]) (by simp [hqd])
      rw [aux_moveAll_eq_some faults k fs step rest fsdst hfa hmv] at hd ⊢
      rcases List.mem_cons.mp hd with heq | hd'
      · have hex : fsExists fsdst.1 d = true := (hmove.2.2 d).mpr (Or.inr heq)
        have hnin : d ∉ rest.map Prod.fst := by
          intro hmem
          apply hdisj d (by simp [hmem])
          have hpd : d = dstOf step := by
            rw [heq, hmove.2.1]
            rfl
          rw [List.map_cons, hpd]
          exact List.mem_cons_self _ _
        exact aux_moveAll_preserve faults rest (k + 1) fsdst.1 d hex hnin
      · exact ih (k + 1) fsdst.1 hdisj' d hd'

theorem aux_moveAll_fault_fails (faults : List Bool) (l : List (FPath × FPath)) :
    ∀ (k : Nat) (fs : FS),
      (∃ j, j < l.length ∧ faults.getD (k + j) false = true) →
      (moveAll faults k fs l).2.2 = false := by
  induction l with
  | nil =>
    intro k fs h
    rcases h with ⟨j, hj, _⟩
    simp at hj
  | cons step rest ih =>
    intro k fs h
    by_cases hfa : faults.getD k false = true
    · rw [aux_moveAll_eq_fault faults k fs step rest hfa]
    cases hmv : moveFile fs step.1 step.2 with
    | none => rw [aux_moveAll_eq_none faults k fs step rest hfa hmv]
    | some fsdst =>
      rcases h with ⟨j, hj, hf⟩
      cases j with
      | zero => exact absurd (by simpa using hf) hfa
      | succ j' =>
        rw [aux_moveAll_eq_some faults k fs step rest fsdst hfa hmv]
        apply ih (k + 1) fsdst.1
        refine ⟨j', by simpa using hj, ?_⟩
        rw [show k + 1 + j' = k + (j' + 1) by omega]
        exact hf

/-! ### Unfolding lemmas for `exec_attempt_core` and `exec_once` -/

theorem aux_core_missing_keys (w : ExecWorld) (task : Job) (m : Manifest)
    (hexit : w.exitCode = 0) (hman : w.manifest = some m)
    (hcomp : manifestComplete m = false) :
    exec_attempt_core w task
      = ⟨false, "result JSON missing required paths", w.fs, []⟩ := by
  simp [exec_attempt_core, hexit, hman, hcomp]

theorem aux_core_unfold (w : ExecWorld) (task : Job) (m : Manifest)
    (hexit : w.exitCode = 0) (hman : w.manifest = some m)
    (hcomp : manifestComplete m = true) :
    (exec_attempt_core w task).ok
        = (moveAll w.moveFault 0 w.fs (movePlan m task.domain)).2.2
    ∧ (exec_attempt_core w task).fs
        = (moveAll w.moveFault 0 w.fs (movePlan m task.domain)).1
    ∧ (exec_attempt_core w task).dsts
        = (moveAll w.moveFault 0 w.fs (movePlan m task.domain)).2.1 := by
  cases hb : (moveAll w.moveFault 0 w.fs (movePlan m task.domain)).2.2 <;>
    simp [exec_attempt_core, hexit, hman, hcomp, hb]

theorem aux_exec_once_fail (w : ExecWorld) (task : Job) (db : Database)
    (h : (exec_attempt_core w task).ok = false) :
    exec_once w task db
      = ⟨false, (exec_attempt_core w task).err, (exec_attempt_core w task).fs, db⟩ := by
  simp [exec_once, h]

theorem aux_validate_fail_fs (fs0 : FS) (a b c d e : FPath)
    (h : (validate_and_clean fs0 a b c d e).2 = false) :
    (validate_and_clean fs0 a b c d e).1 = fsRemoveAll fs0 [a, b, c, d, e] := by
  by_cases hc : wiwi_pcap_lowest_size < fsSize fs0 a ∧ wiwi_ssl_key_lowest_size < fsSize fs0 b
      ∧ fsExists fs0 c = true ∧ fsExists fs0 d = true
  · exact absurd (by simp [validate_and_clean, hc] : (validate_and_clean fs0 a b c d e).2 = true)
      (by simp [h])
  · simp [validate_and_clean, hc]

/-- If any of the five referenced artifact files is absent from the host view,
the relocation step — and with it the whole attempt — is classified as failed. -/
theorem aux_missing_source_fails (w : ExecWorld) (task : Job) (db : Database) (m : Manifest)
    (hexit : w.exitCode = 0) (hman : w.manifest = some m)
    (hdisj : ∀ p ∈ (movePlan m task.domain).map Prod.fst,
        p ∉ (movePlan m task.domain).map dstOf)
    (hex : ∃ p ∈ (movePlan m task.domain).map Prod.fst, fsExists w.fs p = false) :
    (exec_once w task db).ok = false := by
  rw [aux_exec_once_ok]
  cases hcb : manifestComplete m with
  | false => rw [aux_core_missing_keys w task m hexit hman hcb]
  | true =>
    rw [(aux_core_unfold w task m hexit hman hcb).1]
    cases hb : (moveAll w.moveFault 0 w.fs (movePlan m task.domain)).2.2 with
    | false => rfl
    | true =>
      exfalso
      rcases hex with ⟨p, hp, hfalse⟩
      have := aux_moveAll_ok_sources w.moveFault (movePlan m task.domain) 0 w.fs hdisj hb p hp
      rw [this] at hfalse
      simp at hfalse

theorem aux_validate_size_fail (fs0 : FS) (a b c d e : FPath)
    (h : fsSize fs0 a ≤ wiwi_pcap_lowest_size ∨ fsSize fs0 b ≤ wiwi_ssl_key_lowest_size) :
    (validate_and_clean fs0 a b c d e).2 = false := by
  have hc : ¬(wiwi_pcap_lowest_size < fsSize fs0 a ∧ wiwi_ssl_key_lowest_size < fsSize fs0 b
      ∧ fsExists fs0 c = true ∧ fsExists fs0 d = true) := by
    rintro ⟨h1, h2, _, _⟩
    rcases h with hh | hh <;> omega
  simp [validate_and_clean, hc]

/-- The host view after a run whose content, html and screenshot files came out
zero-byte: the in-container validation (action.py line 128) checks sizes only
for pcap and ssl_key and mere existence for content/html, so nothing is deleted. -/
def zeroContentFs : FS :=
  [ (rwPath "/app/data/1.pcap", 1000000), (rwPath "/app/data/1.keys", 5000),
    (rwPath "/app/data/1.txt", 0), (rwPath "/app/data/1.html", 0),
    (rwPath "/app/data/1.png", 0) ]

def zeroContentWorld : ExecWorld :=
  { exitCode := 0, errText := "", manifest := some okManifest, fs := zeroContentFs,
    moveFault := [], dbError := false }

/-- C4 (counterexample to the claim as stated): an execution exiting 0 whose
referenced content, html and screenshot files are zero-byte passes the
in-container validation (only pcap and ssl_key have size thresholds; screenshot
is not checked at all), nothing is deleted, every move succeeds, and the attempt
is classified as a success — `exec_once` returns true, refuting  "any referenced
artifact file ... zero-byte/undersized causes the attempt to be classified as
failed". -/
theorem manifest_size_claim_counterexample :
    fsSize zeroContentFs (rwPath "/app/data/1.txt") = 0
    ∧ fsSize zeroContentFs (rwPath "/app/data/1.png") = 0
    ∧ (validate_and_clean zeroContentFs (rwPath "/app/data/1.pcap")
        (rwPath "/app/data/1.keys") (rwPath "/app/data/1.txt")
        (rwPath "/app/data/1.html") (rwPath "/app/data/1.png")).2 = true
    ∧ (validate_and_clean zeroContentFs (rwPath "/app/data/1.pcap")
        (rwPath "/app/data/1.keys") (rwPath "/app/data/1.txt")
        (rwPath "/app/data/1.html") (rwPath "/app/data/1.png")).1 = zeroContentFs
    ∧ zeroContentWorld.exitCode = 0
    ∧ (exec_once zeroContentWorld sampleJob sampleDb).ok = true := by
  refine ⟨by decide, by decide, by decide, by decide, rfl, by decide⟩

/-- C4 (amended): after an environment execution that exits 0, a manifest
missing any required path key, or referencing an artifact file that is missing
from the host view, makes the attempt fail (`exec_once` returns false, the same
path as an execution failure); size thresholds are enforced by the in-container
validation only for the pcap (> 250000 bytes) and ssl_key (> 2000 bytes) files —
an undersized or zero-byte pcap or ssl_key makes that validation delete all five
files of the attempt, so the subsequent relocation fails — whereas a zero-byte
content, html or screenshot file is not detected and the attempt succeeds. -/
theorem manifest_validation_amended (w : ExecWorld) (task : Job) (db : Database)
    (m : Manifest) (hexit : w.exitCode = 0) (hman : w.manifest = some m) :
    (manifestComplete m = false →
        (exec_once w task db).ok = false
        ∧ (exec_once w task db).err = "result JSON missing required paths")
    ∧ ((∀ p ∈ (movePlan m task.domain).map Prod.fst,
          p ∉ (movePlan m task.domain).map dstOf) →
       (∃ p ∈ (movePlan m task.domain).map Prod.fst, fsExists w.fs p = false) →
        (exec_once w task db).ok = false)
    ∧ (∀ fs0 : FS,
        (∀ p ∈ (movePlan m task.domain).map Prod.fst,
          p ∉ (movePlan m task.domain).map dstOf) →
        w.fs = (validate_and_clean fs0 (rwPath (m.pcap_path.getD ""))
            (rwPath (m.ssl_key_file_path.getD "")) (rwPath (m.content_path.getD ""))
            (rwPath (m.html_path.getD "")) (rwPath (m.screenshot_path.getD ""))).1 →
        (fsSize fs0 (rwPath (m.pcap_path.getD "")) ≤ wiwi_pcap_lowest_size
          ∨ fsSize fs0 (rwPath (m.ssl_key_file_path.getD "")) ≤ wiwi_ssl_key_lowest_size) →
        (validate_and_clean fs0 (rwPath (m.pcap_path.getD ""))
            (rwPath (m.ssl_key_file_path.getD "")) (rwPath (m.content_path.getD ""))
            (rwPath (m.html_path.getD "")) (rwPath (m.screenshot_path.getD ""))).2 = false
        ∧ (exec_once w task db).ok = false) := by
  refine ⟨?_, ?_, ?_⟩
  · intro hcomp
    have hcore := aux_core_missing_keys w task m hexit hman hcomp
    rw [aux_exec_once_fail w task db (by rw [hcore])]
    rw [hcore]
    exact ⟨rfl, rfl⟩
  · intro hdisj hex
    exact aux_missing_source_fails w task db m hexit hman hdisj hex
  · intro fs0 hdisj hfs hsz
    have hval := aux_validate_size_fail fs0 (rwPath (m.pcap_path.getD ""))
      (rwPath (m.ssl_key_file_path.getD "")) (rwPath (m.content_path.getD ""))
      (rwPath (m.html_path.getD "")) (rwPath (m.screenshot_path.getD "")) hsz
    refine ⟨hval, ?_⟩
    apply aux_missing_source_fails w task db m hexit hman hdisj
    refine ⟨rwPath (m.pcap_path.getD ""), ?_, ?_⟩
    · simp [movePlan]
    · rw [hfs, aux_validate_fail_fs fs0 _ _ _ _ _ hval]
      exact aux_fsRemoveAll_not_exists _ fs0 _ (by simp)

/-- A manifest whose screenshot key is absent (`result.get` yields `None`). -/
def badManifest : Manifest := { okManifest with screenshot_path := none }

def badWorld : ExecWorld := { okWorld with manifest := some badManifest }

/-- The host view after a capture whose pcap came out undersized: the
in-container validation fails and deletes all five files of the attempt. -/
def smallPcapFs : FS :=
  [ (rwPath "/app/data/1.pcap", 100), (rwPath "/app/data/1.keys", 5000),
    (rwPath "/app/data/1.txt", 10), (rwPath "/app/data/1.html", 10),
    (rwPath "/app/data/1.png", 10) ]

def smallPcapWorld : ExecWorld :=
  { exitCode := 0, errText := "",
    manifest := some okManifest,
    fs := (validate_and_clean smallPcapFs (rwPath "/app/data/1.pcap")
      (rwPath "/app/data/1.keys") (rwPath "/app/data/1.txt")
      (rwPath "/app/data/1.html") (rwPath "/app/data/1.png")).1,
    moveFault := [], dbError := false }

theorem manifest_validation_amended_witness :
    ((exec_once badWorld sampleJob sampleDb).ok = false
      ∧ (exec_once badWorld sampleJob sampleDb).err = "result JSON missing required paths")
    ∧ ((validate_and_clean smallPcapFs (rwPath "/app/data/1.pcap")
          (rwPath "/app/data/1.keys") (rwPath "/app/data/1.txt")
          (rwPath "/app/data/1.html") (rwPath "/app/data/1.png")).2 = false
      ∧ (exec_once smallPcapWorld sampleJob sampleDb).ok = false) :=
  ⟨(manifest_validation_amended badWorld sampleJob sampleDb badManifest rfl rfl).1 (by decide),
   (manifest_validation_amended smallPcapWorld sampleJob sampleDb okManifest rfl rfl).2.2
     smallPcapFs (by decide) rfl (Or.inl (by decide))⟩

/-- C5 (counterexample to the claim as stated): a job whose validated-artifact
relocation fails mid-move on every attempt does NOT leave the backlog row
unclaimed — after the retries are exhausted the worker invokes `markFailed`,
which sets the completion column to the sentinel `'error'`, so the row is
terminal and is never re-offered. -/
theorem relocation_failure_claim_counterexample :
    (exec_attempt_core faultWorld sampleJob).ok = false
    ∧ (exec_attempt_core faultWorld sampleJob).dsts
        = ["/netdisk/news_receiver/dailymail.co.uk/pcap/1.pcap"]
    ∧ findRow (dbGet (worker_process_one (fun _ => AttemptWorld.runs faultWorld) false
        "news_traffic0" sampleJob RETRY sampleDb stats0).1 "dailymail_content") 1
        = some { sampleRow with pcap_path := some "error" }
    ∧ pcapEmpty { sampleRow with pcap_path := some "error" } = false := by
  refine ⟨by decide, by decide, by decide, by decide⟩

/-- C5 (amended): a mid-move I/O fault during relocation makes the attempt fail
(`exec_once` returns false), leaves the files already moved in place at their
destinations (no rollback), and leaves the backlog untouched by that attempt —
but when every attempt of the job fails this way, the worker counts the job as
failed and invokes `markFailed` once, which claims the row with the `'error'`
sentinel rather than leaving it unclaimed for a future run. -/
theorem relocation_failure_amended (w : ExecWorld) (task : Job) (db : Database)
    (m : Manifest) (k : Nat)
    (hexit : w.exitCode = 0) (hman : w.manifest = some m)
    (hcomp : manifestComplete m = true)
    (hk : k < 5) (hfault : w.moveFault.getD k false = true)
    (hdisj : ∀ p ∈ (movePlan m task.domain).map Prod.fst,
        p ∉ (movePlan m task.domain).map dstOf) :
    (exec_once w task db).ok = false
    ∧ (exec_once w task db).db = db
    ∧ (∀ d ∈ (exec_attempt_core w task).dsts,
        fsExists (exec_attempt_core w task).fs d = true)
    ∧ (task.domain ≠ "" → ∀ (mfError : Bool) (container : String) (R : Nat) (stats : Stats),
        (worker_process_one (fun _ => AttemptWorld.runs w) mfError container task R db stats).1
          = (mark_failed_record_to_db mfError db task.domain task.row_id).1
        ∧ (worker_process_one (fun _ => AttemptWorld.runs w) mfError container task R db
            stats).2.2.markFailedCalls = 1
        ∧ (worker_process_one (fun _ => AttemptWorld.runs w) mfError container task R db
            stats).2.1.fail = stats.fail + 1) := by
  have hmfail : (moveAll w.moveFault 0 w.fs (movePlan m task.domain)).2.2 = false := by
    apply aux_moveAll_fault_fails
    refine ⟨k, ?_, by simpa using hfault⟩
    simp [movePlan]
    omega
  have hcore : (exec_attempt_core w task).ok = false := by
    rw [(aux_core_unfold w task m hexit hman hcomp).1]
    exact hmfail
  have hexec := aux_exec_once_fail w task db hcore
  refine ⟨by rw [hexec], by rw [hexec], ?_, ?_⟩
  · intro d hd
    rw [(aux_core_unfold w task m hexit hman hcomp).2.2] at hd
    rw [(aux_core_unfold w task m hexit hman hcomp).2.1]
    exact aux_moveAll_dsts w.moveFault (movePlan m task.domain) 0 w.fs hdisj d hd
  · intro hdom mfError container R stats
    have hcore' : ∀ c : String,
        (exec_attempt_core w { task with container := c }).ok = false := by
      intro c
      rw [aux_core_container]
      exact hcore
    have hfail : ∀ (n : Nat) (dbx : Database),
        (attemptOnce ((fun _ => AttemptWorld.runs w) n) { task with container := container }
          dbx).1 = false := by
      intro n dbx
      simp only [attemptOnce]
      rw [aux_exec_once_ok]
      exact hcore' container
    have hall := aux_runAttempts_all_fail (fun _ => AttemptWorld.runs w)
      { task with container := container } hfail (List.range (R + 1)) db
    have hdom' : ({ task with container := container } : Job).domain ≠ "" := hdom
    refine ⟨?_, ?_, ?_⟩
    all_goals
      simp [worker_process_one, hall.1, hall.2.1, hall.2.2.1, hall.2.2.2, hdom']

theorem relocation_failure_amended_witness :
    (exec_once faultWorld sampleJob sampleDb).ok = false
    ∧ (exec_once faultWorld sampleJob sampleDb).db = sampleDb
    ∧ fsExists (exec_attempt_core faultWorld sampleJob).fs
        "/netdisk/news_receiver/dailymail.co.uk/pcap/1.pcap" = true
    ∧ (worker_process_one (fun _ => AttemptWorld.runs faultWorld) false "news_traffic0"
        sampleJob RETRY sampleDb stats0).2.2.markFailedCalls = 1 := by
  have h := relocation_failure_amended faultWorld sampleJob sampleDb okManifest 1
    rfl rfl (by decide) (by decide) (by decide) (by decide)
  refine ⟨h.1, h.2.1, ?_, ?_⟩
  · exact h.2.2.1 _ (by decide)
  · exact (h.2.2.2 (by decide) false "news_traffic0" RETRY stats0).2.1

/-! ### Lemmas on the container pool -/


theorem aux_find_mapped (cs : List (String × ContainerState)) (n m : String)
    (f : ContainerState → ContainerState) :
    (cs.map (fun e => if e.1 = n then (e.1, f e.2) else e)).find? (fun e => e.1 = m)
      = if m = n then (cs.find? (fun e => e.1 = m)).map (fun e => (e.1, f e.2))
        else cs.find? (fun e => e.1 = m) := by
  induction cs with
  | nil => by_cases hmn : m = n <;> simp [hmn]
  | cons e es ih =>
    simp only [List.map_cons]
    by_cases he : e.1 = n
    · rw [if_pos he]
      by_cases hmn : m = n
      · have hem : e.1 = m := by rw [he, hmn]
        rw [List.find?_cons_of_pos _ (by simpa using hem),
            List.find?_cons_of_pos _ (by simpa using hem), if_pos hmn]
        simp
      · have hem : ¬(e.1 = m) := fun hh => hmn (hh.symm.trans he)
        rw [List.find?_cons_of_neg _ (by simpa using hem),
            List.find?_cons_of_neg _ (by simpa using hem)]
        exact ih
    · rw [if_neg he]
      by_cases hem : e.1 = m
      · have hmn : ¬(m = n) := fun hh => he (hem.trans hh)
        rw [List.find?_cons_of_pos _ (by simpa using hem),
            List.find?_cons_of_pos _ (by simpa using hem), if_neg hmn]
      · rw [List.find?_cons_of_neg _ (by simpa using hem),
            List.find?_cons_of_neg _ (by simpa using hem)]
        exact ih

theorem aux_find_append_single (cs : List (String × ContainerState)) (n : String)
    (st : ContainerState) (m : String) :
    (cs ++ [(n, st)]).find? (fun e => e.1 = m)
      = (cs.find? (fun e => e.1 = m)).or (if n = m then some (n, st) else none) := by
  induction cs with
  | nil => by_cases hnm : n = m <;> simp [List.find?, hnm]
  | cons e es ih =>
    by_cases hem : e.1 = m
    · rw [List.cons_append, List.find?_cons_of_pos _ (by simpa using hem),
          List.find?_cons_of_pos _ (by simpa using hem)]
      rfl
    · rw [List.cons_append, List.find?_cons_of_neg _ (by simpa using hem),
          List.find?_cons_of_neg _ (by simpa using hem)]
      exact ih

theorem aux_lookupC_create (w : DockerWorld) (n m : String) :
    lookupC (create_container w n) m
      = (lookupC w m).or (if n = m then some ⟨true, false⟩ else none) := by
  unfold lookupC create_container
  simp only []
  rw [aux_find_append_single]
  cases hf : w.containers.find? (fun e => e.1 = m) with
  | some e => simp [hf]
  | none => by_cases hnm : n = m <;> simp [hf, hnm]

theorem aux_lookupC_start (w : DockerWorld) (n m : String) :
    lookupC (start_container w n) m
      = if m = n then (lookupC w m).map setRunning else lookupC w m := by
  unfold lookupC start_container
  simp only []
  rw [aux_find_mapped]
  by_cases hmn : m = n <;> simp [hmn, Option.map_map]
  rfl

theorem aux_lookupC_markmap (w : DockerWorld) (n m : String) (log : List String) :
    lookupC { containers :=
                w.containers.map (fun e => if e.1 = n then (e.1, setMarker e.2) else e),
              offloadApplied := log } m
      = if m = n then (lookupC w m).map setMarker else lookupC w m := by
  unfold lookupC
  simp only []
  rw [aux_find_mapped]
  by_cases hmn : m = n <;> simp [hmn, Option.map_map]
  rfl

theorem aux_disable_exists (ef : List String) (w : DockerWorld) (n m : String) :
    container_exists (disable_offload_once ef w n) m = container_exists w m := by
  unfold disable_offload_once
  cases hn : lookupC w n with
  | none => rfl
  | some st =>
    by_cases hm : st.offloadMarker
    · simp [hm]
    · by_cases hef : n ∈ ef
      · simp [hm, hef]
      · simp only [hm, Bool.false_eq_true, if_false, hef, if_neg]
        unfold container_exists
        rw [aux_lookupC_markmap]
        by_cases hmn : m = n <;> simp [hmn]

theorem aux_disable_running (ef : List String) (w : DockerWorld) (n m : String) :
    container_running (disable_offload_once ef w n) m = container_running w m := by
  unfold disable_offload_once
  cases hn : lookupC w n with
  | none => rfl
  | some st =>
    by_cases hm : st.offloadMarker
    · simp [hm]
    · by_cases hef : n ∈ ef
      · simp [hm, hef]
      · simp only [hm, Bool.false_eq_true, if_false, hef, if_neg]
        unfold container_running
        rw [aux_lookupC_markmap]
        by_cases hmn : m = n
        · rw [if_pos hmn]
          cases lookupC w m with
          | none => rfl
          | some st2 => rfl
        · rw [if_neg hmn]

theorem aux_disable_log (ef : List String) (w : DockerWorld) (n : String) :
    (disable_offload_once ef w n).offloadApplied = w.offloadApplied
    ∨ (disable_offload_once ef w n).offloadApplied = w.offloadApplied ++ [n] := by
  unfold disable_offload_once
  cases lookupC w n with
  | none => exact Or.inl rfl
  | some st =>
    by_cases hm : st.offloadMarker
    · exact Or.inl (by simp [hm])
    · by_cases hef : n ∈ ef
      · exact Or.inl (by simp [hm, hef])
      · exact Or.inr (by simp [hm, hef])

theorem aux_disable_count (ef : List String) (w : DockerWorld) (n x : String) :
    (disable_offload_once ef w n).offloadApplied.count x
      ≤ w.offloadApplied.count x + (if x = n then 1 else 0) := by
  rcases aux_disable_log ef w n with h | h
  · rw [h]
    omega
  · rw [h, List.count_append]
    by_cases hxn : x = n
    · subst hxn
      simp
    · simp [hxn]

theorem aux_disable_count_ne (ef : List String) (w : DockerWorld) (n x : String)
    (hx : x ≠ n) :
    (disable_offload_once ef w n).offloadApplied.count x = w.offloadApplied.count x := by
  rcases aux_disable_log ef w n with h | h
  · rw [h]
  · rw [h, List.count_append]
    simp [hx]

theorem aux_pass3_exists (ef : List String) (l : List String) :
    ∀ (w : DockerWorld) (m : String),
      container_exists (preparePass3 ef w l) m = container_exists w m := by
  induction l with
  | nil => intro w m; rfl
  | cons n ns ih =>
    intro w m
    rw [show preparePass3 ef w (n :: ns) = preparePass3 ef (disable_offload_once ef w n) ns
      from rfl]
    rw [ih (disable_offload_once ef w n) m, aux_disable_exists]

theorem aux_pass3_running (ef : List String) (l : List String) :
    ∀ (w : DockerWorld) (m : String),
      container_running (preparePass3 ef w l) m = container_running w m := by
  induction l with
  | nil => intro w m; rfl
  | cons n ns ih =>
    intro w m
    rw [show preparePass3 ef w (n :: ns) = preparePass3 ef (disable_offload_once ef w n) ns
      from rfl]
    rw [ih (disable_offload_once ef w n) m, aux_disable_running]

theorem aux_pass3_count (ef : List String) (l : List String) :
    ∀ (w : DockerWorld) (x : String), l.Nodup →
      (preparePass3 ef w l).offloadApplied.count x
        ≤ w.offloadApplied.count x + (if x ∈ l then 1 else 0) := by
  induction l with
  | nil => intro w x _; simp [preparePass3]
  | cons n ns ih =>
    intro w x hnd
    rw [show preparePass3 ef w (n :: ns) = preparePass3 ef (disable_offload_once ef w n) ns
      from rfl]
    have h1 := ih (disable_offload_once ef w n) x (List.Nodup.of_cons hnd)
    have h2 := aux_disable_count ef w n x
    by_cases hxn : x = n
    · subst hxn
      have hxns : x ∉ ns := (List.nodup_cons.mp hnd).1
      simp [hxns] at h1
      simp at h2 ⊢
      omega
    · simp [hxn] at h2
      by_cases hxns : x ∈ ns
      · simp [hxns] at h1 ⊢
        omega
      · simp [hxn, hxns] at h1 ⊢
        omega

theorem aux_pass3_count_notmem (ef : List String) (l : List String) :
    ∀ (w : DockerWorld) (x : String), x ∉ l →
      (preparePass3 ef w l).offloadApplied.count x = w.offloadApplied.count x := by
  induction l with
  | nil => intro w x _; rfl
  | cons n ns ih =>
    intro w x hx
    rw [show preparePass3 ef w (n :: ns) = preparePass3 ef (disable_offload_once ef w n) ns
      from rfl]
    rw [ih (disable_offload_once ef w n) x (fun h => hx (List.mem_cons_of_mem _ h))]
    exact aux_disable_count_ne ef w n x (fun h => hx (h ▸ List.mem_cons_self _ _))

theorem aux_lookupC_create_ne (w : DockerWorld) (n m : String) (h : m ≠ n) :
    lookupC (create_container w n) m = lookupC w m := by
  rw [aux_lookupC_create]
  rw [if_neg (fun hh => h hh.symm)]
  cases lookupC w m <;> rfl

theorem aux_pass1_lookup (ns : List String) :
    ∀ (w : DockerWorld) (m : String),
      lookupC (preparePass1 w ns).1 m
        = if lookupC w m = none ∧ m ∈ ns then some ⟨true, false⟩ else lookupC w m := by
  induction ns with
  | nil =>
    intro w m
    simp [preparePass1]
  | cons n ns ih =>
    intro w m
    by_cases hex : container_exists w n = true
    · have hstep : preparePass1 w (n :: ns) = preparePass1 w ns := by
        simp [preparePass1, hex]
      rw [hstep, ih w m]
      by_cases hmn : m = n
      · have hsome : ¬lookupC w m = none := by
          subst hmn
          unfold container_exists at hex
          intro hnone
          rw [hnone] at hex
          simp at hex
        simp [hsome]
      · by_cases hin : m ∈ ns <;> simp [hmn, hin]
    · have hstep : preparePass1 w (n :: ns)
          = ((preparePass1 (create_container w n) ns).1,
             n :: (preparePass1 (create_container w n) ns).2) := by
        simp [preparePass1, hex]
      rw [hstep]
      simp only []
      rw [ih (create_container w n) m]
      have hwn : lookupC w n = none := by
        unfold container_exists at hex
        cases hl : lookupC w n
        · rfl
        · rw [hl] at hex
          simp at hex
      by_cases hmn : m = n
      · subst hmn
        have hc := aux_lookupC_create w m m
        rw [hwn] at hc
        simp at hc
        simp [hc, hwn]
      · have hc := aux_lookupC_create_ne w n m hmn
        rw [hc]
        by_cases hin : m ∈ ns <;> simp [hmn, hin]

theorem aux_pass1_created (ns : List String) :
    ∀ (w : DockerWorld),
      (∀ c ∈ (preparePass1 w ns).2, lookupC w c = none ∧ c ∈ ns)
      ∧ (preparePass1 w ns).2.Nodup := by
  induction ns with
  | nil =>
    intro w
    simp [preparePass1]
  | cons n ns ih =>
    intro w
    by_cases hex : container_exists w n = true
    · have hstep : preparePass1 w (n :: ns) = preparePass1 w ns := by
        simp [preparePass1, hex]
      rw [hstep]
      refine ⟨fun c hc => ⟨((ih w).1 c hc).1, List.mem_cons_of_mem _ ((ih w).1 c hc).2⟩,
        (ih w).2⟩
    · have hwn : lookupC w n = none := by
        unfold container_exists at hex
        cases hl : lookupC w n
        · rfl
        · rw [hl] at hex
          simp at hex
      have hstep : preparePass1 w (n :: ns)
          = ((preparePass1 (create_container w n) ns).1,
             n :: (preparePass1 (create_container w n) ns).2) := by
        simp [preparePass1, hex]
      rw [hstep]
      simp only []
      have hcreated := ih (create_container w n)
      have hne : ∀ c ∈ (preparePass1 (create_container w n) ns).2, c ≠ n := by
        intro c hc hcn
        have hl := (hcreated.1 c hc).1
        subst hcn
        have hcr := aux_lookupC_create w c c
        rw [hwn] at hcr
        simp at hcr
        rw [hl] at hcr
        exact Option.noConfusion hcr
      constructor
      · intro c hc
        rcases List.mem_cons.mp hc with rfl | hc'
        · exact ⟨hwn, List.mem_cons_self _ _⟩
        · have h1 := hcreated.1 c hc'
          have h2 := aux_lookupC_create_ne w n c (hne c hc')
          rw [h2] at h1
          exact ⟨h1.1, List.mem_cons_of_mem _ h1.2⟩
      · rw [List.nodup_cons]
        exact ⟨fun hmem => hne n hmem rfl, hcreated.2⟩

theorem aux_pass1_all_exist (ns : List String) :
    ∀ (w : DockerWorld), (∀ n ∈ ns, container_exists w n = true) →
      preparePass1 w ns = (w, []) := by
  induction ns with
  | nil => intro w _; rfl
  | cons n ns ih =>
    intro w h
    have hex := h n (List.mem_cons_self _ _)
    have hstep : preparePass1 w (n :: ns) = preparePass1 w ns := by
      simp [preparePass1, hex]
    rw [hstep]
    exact ih w (fun m hm => h m (List.mem_cons_of_mem _ hm))

theorem aux_pass1_offload (ns : List String) :
    ∀ (w : DockerWorld), (preparePass1 w ns).1.offloadApplied = w.offloadApplied := by
  induction ns with
  | nil => intro w; rfl
  | cons n ns ih =>
    intro w
    by_cases hex : container_exists w n = true
    · have hstep : preparePass1 w (n :: ns) = preparePass1 w ns := by
        simp [preparePass1, hex]
      rw [hstep, ih w]
    · have hstep : (preparePass1 w (n :: ns)).1 = (preparePass1 (create_container w n) ns).1 := by
        simp [preparePass1, hex]
      rw [hstep, ih (create_container w n)]
      rfl

theorem aux_pass2_lookup (ns : List String) :
    ∀ (w : DockerWorld) (m : String),
      lookupC (preparePass2 w ns) m
        = if m ∈ ns then (lookupC w m).map setRunning else lookupC w m := by
  induction ns with
  | nil =>
    intro w m
    simp [preparePass2]
  | cons n ns ih =>
    intro w m
    have hstep : preparePass2 w (n :: ns)
        = preparePass2 (if container_running w n = true then w else start_container w n) ns :=
      rfl
    rw [hstep, ih]
    have hbase : lookupC (if container_running w n = true then w else start_container w n) m
        = if m = n then (lookupC w m).map setRunning else lookupC w m := by
      by_cases hrun : container_running w n = true
      · rw [if_pos hrun]
        by_cases hmn : m = n
        · subst hmn
          unfold container_running at hrun
          cases hl : lookupC w m with
          | none =>
            rw [hl] at hrun
            simp at hrun
          | some st =>
            rw [hl] at hrun
            simp at hrun
            cases st
            simp_all [setRunning]
        · rw [if_neg hmn]
      · rw [if_neg hrun, aux_lookupC_start]
    by_cases hmn : m = n
    · subst hmn
      by_cases hin : m ∈ ns
      · simp [hin, hbase, Option.map_map]
        cases lookupC w m with
        | none => rfl
        | some st => cases st; rfl
      · simp [hin, hbase]
    · by_cases hin : m ∈ ns <;> simp [hin, hmn, hbase]

theorem aux_pass2_id (ns : List String) :
    ∀ (w : DockerWorld), (∀ n ∈ ns, container_running w n = true) →
      preparePass2 w ns = w := by
  induction ns with
  | nil => intro w _; rfl
  | cons n ns ih =>
    intro w h
    have hrun := h n (List.mem_cons_self _ _)
    have hstep : preparePass2 w (n :: ns) = preparePass2 w ns := by
      simp [preparePass2, hrun]
    rw [hstep]
    exact ih w (fun m hm => h m (List.mem_cons_of_mem _ hm))

theorem aux_pass2_offload (ns : List String) :
    ∀ (w : DockerWorld), (preparePass2 w ns).offloadApplied = w.offloadApplied := by
  induction ns with
  | nil => intro w; rfl
  | cons n ns ih =>
    intro w
    have hstep : preparePass2 w (n :: ns)
        = preparePass2 (if container_running w n = true then w else start_container w n) ns :=
      rfl
    rw [hstep, ih]
    by_cases hrun : container_running w n = true <;> simp [hrun, start_container]

theorem aux_keys_mapped (cs : List (String × ContainerState)) (n : String)
    (f : ContainerState → ContainerState) :
    (cs.map (fun e => if e.1 = n then (e.1, f e.2) else e)).map Prod.fst
      = cs.map Prod.fst := by
  rw [List.map_map]
  apply List.map_congr_left
  intro e _
  by_cases he : e.1 = n <;> simp [he]

theorem aux_keys_pass1 (ns : List String) :
    ∀ (w : DockerWorld), (preparePass1 w ns).1.containers.map Prod.fst
      = w.containers.map Prod.fst ++ (preparePass1 w ns).2 := by
  induction ns with
  | nil => intro w; simp [preparePass1]
  | cons n ns ih =>
    intro w
    by_cases hex : container_exists w n = true
    · have hstep : preparePass1 w (n :: ns) = preparePass1 w ns := by
        simp [preparePass1, hex]
      rw [hstep, ih w]
    · have hstep : preparePass1 w (n :: ns)
          = ((preparePass1 (create_container w n) ns).1,
             n :: (preparePass1 (create_container w n) ns).2) := by
        simp [preparePass1, hex]
      rw [hstep]
      simp only []
      rw [ih (create_container w n)]
      show (w.containers ++ [(n, (⟨true, false⟩ : ContainerState))]).map Prod.fst ++ _ = _
      rw [List.map_append]
      simp [List.append_assoc]

theorem aux_keys_pass2 (ns : List String) :
    ∀ (w : DockerWorld), (preparePass2 w ns).containers.map Prod.fst
      = w.containers.map Prod.fst := by
  induction ns with
  | nil => intro w; rfl
  | cons n ns ih =>
    intro w
    have hstep : preparePass2 w (n :: ns)
        = preparePass2 (if container_running w n = true then w else start_container w n) ns :=
      rfl
    rw [hstep, ih]
    by_cases hrun : container_running w n = true
    · rw [if_pos hrun]
    · rw [if_neg hrun]
      exact aux_keys_mapped w.containers n setRunning

theorem aux_keys_disable (ef : List String) (w : DockerWorld) (n : String) :
    (disable_offload_once ef w n).containers.map Prod.fst
      = w.containers.map Prod.fst := by
  unfold disable_offload_once
  cases lookupC w n with
  | none => rfl
  | some st =>
    by_cases hm : st.offloadMarker
    · simp [hm]
    · by_cases hef : n ∈ ef
      · simp [hm, hef]
      · simp only [hm, Bool.false_eq_true, if_false, hef, if_neg]
        exact aux_keys_mapped w.containers n setMarker

theorem aux_keys_pass3 (ef : List String) (l : List String) :
    ∀ (w : DockerWorld), (preparePass3 ef w l).containers.map Prod.fst
      = w.containers.map Prod.fst := by
  induction l with
  | nil => intro w; rfl
  | cons n ns ih =>
    intro w
    rw [show preparePass3 ef w (n :: ns) = preparePass3 ef (disable_offload_once ef w n) ns
      from rfl]
    rw [ih, aux_keys_disable]

theorem aux_lookupC_none_iff (w : DockerWorld) (m : String) :
    lookupC w m = none ↔ m ∉ w.containers.map Prod.fst := by
  unfold lookupC
  cases hf : w.containers.find? (fun e => e.1 = m) with
  | some e =>
    have hmem := List.mem_of_find?_eq_some hf
    have hkey : e.1 = m := by simpa using List.find?_some hf
    constructor
    · intro h
      simp at h
    · intro h
      exact absurd (List.mem_map.mpr ⟨e, hmem, hkey⟩) h
  | none =>
    constructor
    · intro _ hmem
      rcases List.mem_map.mp hmem with ⟨e, he, hfst⟩
      have := List.find?_eq_none.mp hf e he
      simp [hfst] at this
    · intro _
      rfl

/-- C8: running `prepare_pool_once` twice in succession is a no-op the second
time (no duplicate environments are ever created: the container key list stays
duplicate-free, and the second run changes nothing at all), and the one-time
network-offload configuration is applied at most once per environment — and
never to an environment whose in-container marker file is already present. -/
theorem prepare_pool_idempotent (ef names : List String) (w : DockerWorld)
    (hk : (w.containers.map Prod.fst).Nodup) :
    prepare_pool_once ef names (prepare_pool_once ef names w)
        = prepare_pool_once ef names w
    ∧ ((prepare_pool_once ef names w).containers.map Prod.fst).Nodup
    ∧ (∀ n, (prepare_pool_once ef names w).offloadApplied.count n
        ≤ w.offloadApplied.count n + 1)
    ∧ (∀ n st, lookupC w n = some st → st.offloadMarker = true →
        (prepare_pool_once ef names w).offloadApplied.count n
          = w.offloadApplied.count n) := by
  have hprep : prepare_pool_once ef names w
      = preparePass3 ef (preparePass2 (preparePass1 w names).1 names)
          (preparePass1 w names).2 := rfl
  have hex1 : ∀ n ∈ names, container_exists (preparePass1 w names).1 n = true := by
    intro n hn'
    unfold container_exists
    rw [aux_pass1_lookup names w n]
    by_cases h0 : lookupC w n = none
    · simp [h0, hn']
    · cases hl : lookupC w n with
      | none => exact absurd hl h0
      | some st => simp [hl]
  have hex2 : ∀ n ∈ names,
      container_exists (preparePass2 (preparePass1 w names).1 names) n = true := by
    intro n hn'
    unfold container_exists
    rw [aux_pass2_lookup names _ n, if_pos hn']
    have := hex1 n hn'
    unfold container_exists at this
    cases hl : lookupC (preparePass1 w names).1 n with
    | none =>
      rw [hl] at this
      simp at this
    | some st => simp [hl]
  have hrun2 : ∀ n ∈ names,
      container_running (preparePass2 (preparePass1 w names).1 names) n = true := by
    intro n hn'
    unfold container_running
    rw [aux_pass2_lookup names _ n, if_pos hn']
    have := hex1 n hn'
    unfold container_exists at this
    cases hl : lookupC (preparePass1 w names).1 n with
    | none =>
      rw [hl] at this
      simp at this
    | some st => simp [hl, setRunning]
  have hex3 : ∀ n ∈ names, container_exists (prepare_pool_once ef names w) n = true := by
    intro n hn'
    rw [hprep, aux_pass3_exists]
    exact hex2 n hn'
  have hrun3 : ∀ n ∈ names, container_running (prepare_pool_once ef names w) n = true := by
    intro n hn'
    rw [hprep, aux_pass3_running]
    exact hrun2 n hn'
  have hcreated := aux_pass1_created names w
  have hlog : (preparePass2 (preparePass1 w names).1 names).offloadApplied
      = w.offloadApplied := by
    rw [aux_pass2_offload, aux_pass1_offload]
  refine ⟨?_, ?_, ?_, ?_⟩
  · have hq1 : preparePass1 (prepare_pool_once ef names w) names
        = (prepare_pool_once ef names w, []) :=
      aux_pass1_all_exist names _ hex3
    have hq2 : preparePass2 (prepare_pool_once ef names w) names
        = prepare_pool_once ef names w :=
      aux_pass2_id names _ hrun3
    show preparePass3 ef
        (preparePass2 (preparePass1 (prepare_pool_once ef names w) names).1 names)
        (preparePass1 (prepare_pool_once ef names w) names).2
      = prepare_pool_once ef names w
    rw [hq1]
    simp only []
    rw [hq2]
    rfl
  · rw [hprep, aux_keys_pass3, aux_keys_pass2, aux_keys_pass1]
    refine List.Nodup.append hk hcreated.2 ?_
    intro a ha hamem
    have := (hcreated.1 a hamem).1
    exact (aux_lookupC_none_iff w a).mp this ha
  · intro n
    rw [hprep]
    have := aux_pass3_count ef (preparePass1 w names).2
      (preparePass2 (preparePass1 w names).1 names) n hcreated.2
    rw [hlog] at this
    by_cases hmem : n ∈ (preparePass1 w names).2 <;> simp [hmem] at this <;> omega
  · intro n st hlk hmk
    have hnot : n ∉ (preparePass1 w names).2 := by
      intro hmem
      have := (hcreated.1 n hmem).1
      rw [hlk] at this
      exact Option.noConfusion this
    rw [hprep, aux_pass3_count_notmem ef _ _ n hnot, hlog]

theorem prepare_pool_idempotent_witness :
    prepare_pool_once [] ["news_traffic0", "news_traffic1"]
        (prepare_pool_once [] ["news_traffic0", "news_traffic1"] (DockerWorld.mk [] []))
      = prepare_pool_once [] ["news_traffic0", "news_traffic1"] (DockerWorld.mk [] [])
    ∧ ((prepare_pool_once [] ["news_traffic0", "news_traffic1"]
        (DockerWorld.mk [] [])).containers.map Prod.fst).Nodup
    ∧ (prepare_pool_once [] ["news_traffic0", "news_traffic1"]
        (DockerWorld.mk [] [])).offloadApplied.count "news_traffic0"
      ≤ (DockerWorld.mk [] []).offloadApplied.count "news_traffic0" + 1 :=
  have h := prepare_pool_idempotent [] ["news_traffic0", "news_traffic1"]
    (DockerWorld.mk [] []) (by decide)
  ⟨h.1, h.2.1, h.2.2.1 "news_traffic0"⟩
